import Mathlib

/-!
# KM271 communication components

A shallow embedding of `components/km271_wifi/km271_communication_components.cpp`:
the telegram builder table, the debounced write path and the receive path of
`BuderusParamNumber`, decode and control of `BuderusParamSelect`, the fragment
assembler `MultiParameterUnsignedIntegerAssembler` and `FirmwareVersionSensor`.

Conventions of the embedding.

* Bytes (`uint8_t`) and 32-bit words (`uint32_t`) are natural numbers; wrap-around
  is written out with `% 256` and `% 4294967296`.
* A `float` request is a rational number.  Every finite `float` is a rational, and
  for the bounded values that reach the arithmetic of `loop` (`limitedValue * 2 + 0.5`
  with `limitedValue` between -5 and 90, evaluated in `double`) the machine result
  is the exact rational result.
* The transport (`Writer3964R::enqueueTelegram`) and the host (`publish_state`) are
  external collaborators.  A method returns the new component state together with
  the `Effects` it caused: the telegrams handed to the transport, in order, and the
  values published, in order.  The answer of the transport is a function of the
  telegram, passed to the method.
* A Select method returns `none` where the source leaves defined behaviour
  (`mappings.at` out of range, the value of an empty optional).
-/

namespace KM271

/-! ## Constants -/

def keep : Nat := 0x65
def data_type_warm_water : Nat := 0x0c
def data_type_heating_circuit_1 : Nat := 0x07
def data_type_heating_circuit_2 : Nat := 0x08

/-- Modelled from the spec: the enumeration `TransmissionParameter` is declared in a
header that is not part of the sources at hand.  The spec calls it an opaque
enumerated tag, one per logical control point.  The twelve enumerators that the
source file names are constructors of their own; every further enumerator of the
header is `other n`. -/
inductive TransmissionParameter where
  | config_ww_temperature
  | config_ww_operation_mode
  | config_heating_circuit_1_design_temperature
  | config_heating_circuit_1_room_target_temperature_day
  | config_heating_circuit_1_operation_mode
  | config_heating_circuit_1_room_temperature_offset
  | config_heating_circuit_1_flow_temperature_max
  | config_heating_circuit_2_design_temperature
  | config_heating_circuit_2_room_target_temperature_day
  | config_heating_circuit_2_operation_mode
  | config_heating_circuit_2_room_temperature_offset
  | config_heating_circuit_2_flow_temperature_max
  | other (id : Nat)
  deriving DecidableEq, Repr

open TransmissionParameter

/-! ## Machine arithmetic -/

/-- Reading of the 32-bit millisecond clock `millis()` at a given uptime. -/
def millis (uptime : Nat) : Nat := uptime % 4294967296

/-- Subtraction of two `uint32_t` values. -/
def sub32 (a b : Nat) : Nat := (a % 4294967296 + 4294967296 - b % 4294967296) % 4294967296

/-- Addition of two `uint32_t` values. -/
def add32 (a b : Nat) : Nat := (a + b) % 4294967296

/-- Left shift of a `uint32_t` value by eight bits. -/
def shl8 (a : Nat) : Nat := (a * 256) % 4294967296

/-- Truncation toward zero: the integer a floating-integral conversion yields. -/
def truncate (x : ℚ) : Int := Int.tdiv x.num (x.den : Int)

/-- Conversion of a floating value to `uint8_t`: the fractional part is discarded
(truncation toward zero); a truncated value outside 0..255 is reduced modulo 256. -/
def toUint8 (x : ℚ) : Nat := (truncate x % 256).toNat

/-- A telegram: the bytes of the message handed to the transport. -/
abbrev Telegram := List Nat

/-- What a method call did to the outside world. -/
structure Effects (α : Type) where
  /-- telegrams handed to `enqueueTelegram`, oldest first -/
  sent : List Telegram
  /-- values handed to `publish_state`, oldest first -/
  published : List α
  deriving DecidableEq, Repr

namespace Effects

/-- No telegram, no publication. -/
def none {α : Type} : Effects α := ⟨[], []⟩

/-- Effects of one call followed by the effects of the next. -/
def append {α : Type} (e f : Effects α) : Effects α :=
  ⟨e.sent ++ f.sent, e.published ++ f.published⟩

end Effects

/-! ## The telegram builder table -/

inductive TelegramBuilderRule where
  | UseSpecialBuilder
  | UseSelectValue
  | UseFloatValue
  | UseFloatValueTimesTwo
  deriving DecidableEq, Repr

open TelegramBuilderRule

structure TelegramBuilderConfiguration where
  transmissionParameter : TransmissionParameter
  builderRule : TelegramBuilderRule
  minValue : ℚ
  maxValue : ℚ
  maxSelectIndex : Nat
  telegramDataType : Nat
  telegramOffset : Nat
  telegramValuePosition : Nat
  deriving DecidableEq, Repr

def telegramBuilderConfiguration : List TelegramBuilderConfiguration := [
  ⟨config_ww_temperature, UseFloatValue, 30, 60, 0, data_type_warm_water, 0x07, 3⟩,
  ⟨config_heating_circuit_1_design_temperature, UseFloatValue, 30, 90, 0,
    data_type_heating_circuit_1, 0x0e, 4⟩,
  ⟨config_heating_circuit_1_room_target_temperature_day, UseFloatValueTimesTwo, 10, 30, 0,
    data_type_heating_circuit_1, 0x00, 3⟩,
  ⟨config_heating_circuit_1_operation_mode, UseSelectValue, 0, 0, 2,
    data_type_heating_circuit_1, 0x00, 4⟩ ]

/-- The scan of `findTelegramBuilderConfiguration` over a list of rows. -/
def findIn (transmissionParameter : TransmissionParameter) :
    List TelegramBuilderConfiguration → Option TelegramBuilderConfiguration
  | [] => Option.none
  | conf :: rest =>
    if conf.transmissionParameter = transmissionParameter then some conf
    else findIn transmissionParameter rest

def findTelegramBuilderConfiguration (transmissionParameter : TransmissionParameter) :
    Option TelegramBuilderConfiguration :=
  findIn transmissionParameter telegramBuilderConfiguration

/-! ## BuderusParamNumber -/

def limitValueToRange (value minimum maximum : ℚ) : ℚ :=
  if value < minimum then minimum
  else if value > maximum then maximum
  else value

structure BuderusParamNumber where
  transmissionParameter : TransmissionParameter
  hasPendingWriteRequest : Bool
  pendingWriteValue : ℚ
  lastWriteRequest : Nat
  deriving DecidableEq, Repr

namespace BuderusParamNumber

/-- The constructor followed by `setupWriting`: nothing is pending.  The two fields
the constructor leaves uninitialised are given as arguments. -/
def create (transmissionParameter : TransmissionParameter) (pendingWriteValue : ℚ)
    (lastWriteRequest : Nat) : BuderusParamNumber :=
  ⟨transmissionParameter, false, pendingWriteValue, lastWriteRequest⟩

def control (uptime : Nat) (value : ℚ) (s : BuderusParamNumber) : BuderusParamNumber :=
  { s with
    pendingWriteValue := value
    hasPendingWriteRequest := true
    lastWriteRequest := millis uptime }

def sendAndConfirm (enqueueTelegram : Telegram → Bool) (message : Telegram)
    (valueToConfirm : ℚ) (s : BuderusParamNumber) : BuderusParamNumber × Effects ℚ :=
  if enqueueTelegram message then
    ({ s with hasPendingWriteRequest := false }, ⟨[message], [valueToConfirm]⟩)
  else
    (s, ⟨[message], []⟩)

def buildTelegramSendAndConfirm (enqueueTelegram : Telegram → Bool)
    (telegramDataType telegramOffset telegramValuePosition telegramValue : Nat)
    (valueToConfirm : ℚ) (s : BuderusParamNumber) : BuderusParamNumber × Effects ℚ :=
  let message : Telegram := [telegramDataType, telegramOffset, keep, keep, keep, keep, keep, keep]
  let message := message.set (telegramValuePosition + 2) telegramValue
  sendAndConfirm enqueueTelegram message valueToConfirm s

/-- The branches of `loop` that are keyed by the transmission parameter alone; they
are reached when the table has no `UseFloatValue` or `UseFloatValueTimesTwo` row. -/
def loopFallback (enqueueTelegram : Telegram → Bool) (s : BuderusParamNumber) :
    BuderusParamNumber × Effects ℚ :=
  if s.transmissionParameter = config_heating_circuit_1_room_temperature_offset then
    let limitedValue := limitValueToRange s.pendingWriteValue (-5) 5
    let message : Telegram := [data_type_heating_circuit_1, 0x31, keep, keep, keep,
      toUint8 (limitedValue * 2 + 1/2), keep, keep]
    sendAndConfirm enqueueTelegram message limitedValue s
  else if s.transmissionParameter = config_heating_circuit_1_flow_temperature_max then
    let limitedValue := limitValueToRange s.pendingWriteValue 20 90
    let message : Telegram := [data_type_heating_circuit_1, 0x0e, keep, keep,
      toUint8 limitedValue, keep, keep, keep]
    sendAndConfirm enqueueTelegram message limitedValue s
  else if s.transmissionParameter = config_heating_circuit_2_design_temperature then
    let limitedValue := limitValueToRange s.pendingWriteValue 30 90
    let message : Telegram := [data_type_heating_circuit_2, 0x0e, keep, keep, keep, keep,
      toUint8 limitedValue, keep]
    sendAndConfirm enqueueTelegram message limitedValue s
  else if s.transmissionParameter = config_heating_circuit_2_room_target_temperature_day then
    let limitedValue := limitValueToRange s.pendingWriteValue 10 30
    let message : Telegram := [data_type_heating_circuit_2, 0x00, keep, keep, keep,
      toUint8 (limitedValue * 2 + 1/2), keep, keep]
    sendAndConfirm enqueueTelegram message limitedValue s
  else if s.transmissionParameter = config_heating_circuit_2_room_temperature_offset then
    let limitedValue := limitValueToRange s.pendingWriteValue (-5) 5
    let message : Telegram := [data_type_heating_circuit_2, 0x31, keep, keep, keep,
      toUint8 (limitedValue * 2 + 1/2), keep, keep]
    sendAndConfirm enqueueTelegram message limitedValue s
  else if s.transmissionParameter = config_heating_circuit_2_flow_temperature_max then
    let limitedValue := limitValueToRange s.pendingWriteValue 20 90
    let message : Telegram := [data_type_heating_circuit_2, 0x0e, keep, keep,
      toUint8 limitedValue, keep, keep, keep]
    sendAndConfirm enqueueTelegram message limitedValue s
  else
    ({ s with hasPendingWriteRequest := false }, Effects.none)

/-- The body of `loop` once the consolidation period is over: table row first, then
the parameter-specific branches. -/
def loopWrite (enqueueTelegram : Telegram → Bool) (s : BuderusParamNumber) :
    BuderusParamNumber × Effects ℚ :=
  match findTelegramBuilderConfiguration s.transmissionParameter with
  | some bc =>
    if bc.builderRule = UseFloatValue then
      let limitedValue := limitValueToRange s.pendingWriteValue bc.maxValue bc.maxValue
      buildTelegramSendAndConfirm enqueueTelegram bc.telegramDataType bc.telegramOffset
        bc.telegramValuePosition (toUint8 limitedValue) limitedValue s
    else if bc.builderRule = UseFloatValueTimesTwo then
      let limitedValue := limitValueToRange s.pendingWriteValue bc.maxValue bc.maxValue
      buildTelegramSendAndConfirm enqueueTelegram bc.telegramDataType bc.telegramOffset
        bc.telegramValuePosition (toUint8 (limitedValue * 2 + 1/2)) limitedValue s
    else loopFallback enqueueTelegram s
  | Option.none => loopFallback enqueueTelegram s

def writeConsolidationPeriod : Nat := 1000

def loop (enqueueTelegram : Telegram → Bool) (uptime : Nat) (s : BuderusParamNumber) :
    BuderusParamNumber × Effects ℚ :=
  if s.hasPendingWriteRequest then
    let now := millis uptime
    if sub32 now s.lastWriteRequest > writeConsolidationPeriod then
      loopWrite enqueueTelegram s
    else (s, Effects.none)
  else (s, Effects.none)

/-- Whether the consolidation period is over for state `s` at the given uptime: the
condition of the inner `if` of `loop`. -/
def windowExpired (uptime : Nat) (s : BuderusParamNumber) : Bool :=
  decide (sub32 (millis uptime) s.lastWriteRequest > writeConsolidationPeriod)

/-- A run of `loop` evaluations at the given uptimes against one transport. -/
def loops (enqueueTelegram : Telegram → Bool) :
    List Nat → BuderusParamNumber → BuderusParamNumber × Effects ℚ
  | [], s => (s, Effects.none)
  | t :: ts, s =>
    let r := loop enqueueTelegram t s
    let q := loops enqueueTelegram ts r.1
    (q.1, r.2.append q.2)

end BuderusParamNumber

/-! ## The encoding rule of a Number, read off `loop` -/

/-- What `loop` encodes for one transmission parameter: the documented bounds, the
scaling, and where the value byte goes. -/
structure NumberRule where
  minValue : ℚ
  maxValue : ℚ
  /-- the byte is twice the value (half-degree resolution) rather than the value -/
  timesTwo : Bool
  telegramDataType : Nat
  telegramOffset : Nat
  telegramValuePosition : Nat
  deriving DecidableEq, Repr

/-- The parameter-specific branches of `loop`, as rules. -/
def fallbackNumberRule (p : TransmissionParameter) : Option NumberRule :=
  if p = config_heating_circuit_1_room_temperature_offset then
    some ⟨-5, 5, true, data_type_heating_circuit_1, 0x31, 3⟩
  else if p = config_heating_circuit_1_flow_temperature_max then
    some ⟨20, 90, false, data_type_heating_circuit_1, 0x0e, 2⟩
  else if p = config_heating_circuit_2_design_temperature then
    some ⟨30, 90, false, data_type_heating_circuit_2, 0x0e, 4⟩
  else if p = config_heating_circuit_2_room_target_temperature_day then
    some ⟨10, 30, true, data_type_heating_circuit_2, 0x00, 3⟩
  else if p = config_heating_circuit_2_room_temperature_offset then
    some ⟨-5, 5, true, data_type_heating_circuit_2, 0x31, 3⟩
  else if p = config_heating_circuit_2_flow_temperature_max then
    some ⟨20, 90, false, data_type_heating_circuit_2, 0x0e, 2⟩
  else Option.none

/-- The rule `loop` applies to a parameter: a `UseFloatValue` or
`UseFloatValueTimesTwo` table row, else a parameter-specific branch, else none. -/
def numberRule (p : TransmissionParameter) : Option NumberRule :=
  match findTelegramBuilderConfiguration p with
  | some bc =>
    if bc.builderRule = UseFloatValue then
      some ⟨bc.minValue, bc.maxValue, false, bc.telegramDataType, bc.telegramOffset,
        bc.telegramValuePosition⟩
    else if bc.builderRule = UseFloatValueTimesTwo then
      some ⟨bc.minValue, bc.maxValue, true, bc.telegramDataType, bc.telegramOffset,
        bc.telegramValuePosition⟩
    else fallbackNumberRule p
  | Option.none => fallbackNumberRule p

/-- The telegram of a rule carrying the given value byte. -/
def ruleFrame (r : NumberRule) (byte : Nat) : Telegram :=
  ([r.telegramDataType, r.telegramOffset, keep, keep, keep, keep, keep, keep] : Telegram).set
    (r.telegramValuePosition + 2) byte

/-- The value byte of a rule for the limited value `c`. -/
def ruleByte (r : NumberRule) (c : ℚ) : Nat :=
  if r.timesTwo then toUint8 (c * 2 + 1/2) else toUint8 c

/-- Whether `loop` has an encoding rule for the parameter. -/
def hasEncodingRule (p : TransmissionParameter) : Bool := (numberRule p).isSome

/-! ## BuderusParamSelect: telegram construction -/

structure BuderusParamSelect where
  transmissionParameter : TransmissionParameter
  /-- device codes, index-parallel to `options` -/
  mappings : List Nat
  /-- labels of the select, as configured in its traits -/
  options : List String
  deriving DecidableEq, Repr

namespace BuderusParamSelect

def sendAndConfirm (enqueueTelegram : Telegram → Bool) (message : Telegram)
    (value : String) : Effects String :=
  if enqueueTelegram message then ⟨[message], [value]⟩ else ⟨[message], []⟩

def buildTelegramSendAndConfirm (enqueueTelegram : Telegram → Bool)
    (telegramDataType telegramOffset telegramValuePosition selectIndex : Nat)
    (value : String) : Effects String :=
  let message : Telegram := [telegramDataType, telegramOffset, keep, keep, keep, keep, keep, keep]
  let message := message.set (telegramValuePosition + 2) selectIndex
  sendAndConfirm enqueueTelegram message value

end BuderusParamSelect

/-! ## MultiParameterUnsignedIntegerAssembler -/

structure MultiParameterUnsignedIntegerAssembler where
  components : Fin 3 → Nat
  component_known : Fin 3 → Bool

namespace MultiParameterUnsignedIntegerAssembler

/-- The constructor: no component is known; the component slots are not initialised
and hold whatever is given. -/
def create (components : Fin 3 → Nat) : MultiParameterUnsignedIntegerAssembler :=
  ⟨components, fun _ => false⟩

/-- One call of `handleReceivedUnsignedValue`: the new state and the value handed
to the sensor, if any.  The element type of `components` is declared in the header;
the assembly is computed in `uint32_t` arithmetic, and for byte-sized fragments no
step of it wraps. -/
def handleReceivedUnsignedValue (sensorTypeParam value : Nat)
    (s : MultiParameterUnsignedIntegerAssembler) :
    MultiParameterUnsignedIntegerAssembler × Option Nat :=
  let valueIndex := sensorTypeParam &&& 0x0f
  if h : valueIndex > 2 then (s, Option.none)
  else
    let i : Fin 3 := ⟨valueIndex, by omega⟩
    let s1 : MultiParameterUnsignedIntegerAssembler :=
      ⟨Function.update s.components i value, Function.update s.component_known i true⟩
    if valueIndex ≠ 0 then (s1, Option.none)
    else
      let all_components_known :=
        s1.component_known 0 && s1.component_known 1 && s1.component_known 2
      if all_components_known then
        let result := add32 (shl8 (add32 (shl8 (s1.components 2)) (s1.components 1)))
          (s1.components 0)
        (s1, some result)
      else (s1, Option.none)

/-- A run of `handleReceivedUnsignedValue` calls, each given as the pair
(sensorTypeParam, value); the result lists what every call published. -/
def run : List (Nat × Nat) → MultiParameterUnsignedIntegerAssembler →
    MultiParameterUnsignedIntegerAssembler × List (Option Nat)
  | [], s => (s, [])
  | c :: cs, s =>
    let r := handleReceivedUnsignedValue c.1 c.2 s
    let q := run cs r.1
    (q.1, r.2 :: q.2)

/-- The sub-index of a call: the low four bits of the discriminator. -/
def subIndex (sensorTypeParam : Nat) : Nat := sensorTypeParam &&& 0x0f

/-- The value most recently received for sub-index `i` in a run of calls, if any. -/
def lastReceived (i : Nat) : List (Nat × Nat) → Option Nat
  | [] => Option.none
  | c :: cs =>
    match lastReceived i cs with
    | some v => some v
    | Option.none => if subIndex c.1 = i then some c.2 else Option.none

end MultiParameterUnsignedIntegerAssembler

/-! ## BuderusParamNumber: values received from the control unit -/

/-- Conversion of an unsigned integer to `float` (24-bit significand, round to nearest,
ties to even).  Values up to 2^24 are converted exactly. -/
def floatOfNat (v : Nat) : Nat :=
  if v < 16777216 then v
  else
    let shift := Nat.log2 v + 1 - 24
    let q := v / 2 ^ shift
    let r := v % 2 ^ shift
    let half := 2 ^ (shift - 1)
    let q := if r > half ∨ (r = half ∧ q % 2 = 1) then q + 1 else q
    q * 2 ^ shift

namespace BuderusParamNumber

def handleReceivedUnsignedValue (_sensorTypeParam value : Nat) (s : BuderusParamNumber) :
    BuderusParamNumber × Effects ℚ :=
  (s, ⟨[], [(floatOfNat value : ℚ)]⟩)

end BuderusParamNumber

/-! ## BuderusParamSelect: decode and control -/

namespace BuderusParamSelect

/-- The lookup `index_of` of the select base class: the index of the first option
equal to the label, if there is one. -/
def index_of (options : List String) (value : String) : Option Nat :=
  if options.indexOf value < options.length then some (options.indexOf value) else Option.none

/-- The lookup `at` of the select base class: the option at an index, if the index
is within the options. -/
def optionAt (options : List String) (index : Nat) : Option String := options[index]?

/-- One call of `handleReceivedUnsignedValue`.  The result is `none` where the source
takes the value of an empty optional (the index found in `mappings` lies beyond the
options); otherwise it holds the effects of the call. -/
def handleReceivedUnsignedValue (_sensorTypeParam value : Nat) (s : BuderusParamSelect) :
    Option (Effects String) :=
  let mapping_idx := s.mappings.indexOf value
  if mapping_idx = s.mappings.length then some Effects.none
  else
    match optionAt s.options mapping_idx with
    | some selectValue => some ⟨[], [selectValue]⟩
    | Option.none => Option.none

/-- The branches of `control` keyed by the transmission parameter alone. -/
def controlFallback (enqueueTelegram : Telegram → Bool) (value : String) (numericValue : Nat)
    (s : BuderusParamSelect) : Effects String :=
  if s.transmissionParameter = config_heating_circuit_2_operation_mode then
    if numericValue > 2 then Effects.none
    else
      let message : Telegram := [data_type_heating_circuit_2, 0x00, keep, keep, keep, keep,
        numericValue, keep]
      sendAndConfirm enqueueTelegram message value
  else if s.transmissionParameter = config_ww_operation_mode then
    if numericValue > 2 then Effects.none
    else
      let message : Telegram := [data_type_warm_water, 0x0e, numericValue, keep, keep, keep,
        keep, keep]
      sendAndConfirm enqueueTelegram message value
  else Effects.none

/-- One call of `control`.  The result is `none` where `mappings.at` is out of range
(the label has an index beyond `mappings`); otherwise it holds the effects of the
call. -/
def control (enqueueTelegram : Telegram → Bool) (value : String) (s : BuderusParamSelect) :
    Option (Effects String) :=
  match index_of s.options value with
  | some idx =>
    match s.mappings[idx]? with
    | Option.none => Option.none
    | some numericValue =>
      match findTelegramBuilderConfiguration s.transmissionParameter with
      | some bc =>
        if bc.builderRule = UseSelectValue then
          if numericValue > bc.maxSelectIndex then some Effects.none
          else some (buildTelegramSendAndConfirm enqueueTelegram bc.telegramDataType
            bc.telegramOffset bc.telegramValuePosition numericValue value)
        else some (controlFallback enqueueTelegram value numericValue s)
      | Option.none => some (controlFallback enqueueTelegram value numericValue s)
  | Option.none => some Effects.none

end BuderusParamSelect

/-- What `control` of a Select encodes for one transmission parameter. -/
structure SelectRule where
  maxSelectIndex : Nat
  telegramDataType : Nat
  telegramOffset : Nat
  telegramValuePosition : Nat
  deriving DecidableEq, Repr

/-- The rule `control` of a Select applies to a parameter: a `UseSelectValue` table
row, else a parameter-specific branch, else none. -/
def selectRule (p : TransmissionParameter) : Option SelectRule :=
  let fallback : Option SelectRule :=
    if p = config_heating_circuit_2_operation_mode then
      some ⟨2, data_type_heating_circuit_2, 0x00, 4⟩
    else if p = config_ww_operation_mode then
      some ⟨2, data_type_warm_water, 0x0e, 0⟩
    else Option.none
  match findTelegramBuilderConfiguration p with
  | some bc =>
    if bc.builderRule = UseSelectValue then
      some ⟨bc.maxSelectIndex, bc.telegramDataType, bc.telegramOffset, bc.telegramValuePosition⟩
    else fallback
  | Option.none => fallback

/-- The telegram of a Select rule carrying the given device code. -/
def selectFrame (r : SelectRule) (code : Nat) : Telegram :=
  ([r.telegramDataType, r.telegramOffset, keep, keep, keep, keep, keep, keep] : Telegram).set
    (r.telegramValuePosition + 2) code

/-! ## FirmwareVersionSensor -/

/-- The state of the firmware version sensor.  The types of `major` and `minor` are
declared in the header; the fields hold the 32-bit value as it was received. -/
structure FirmwareVersionSensor where
  major : Nat
  minor : Nat
  major_known : Bool
  minor_known : Bool
  deriving DecidableEq, Repr

namespace FirmwareVersionSensor

/-- The constructor: neither field is known; the fields themselves are not initialised
and hold whatever is given. -/
def create (major minor : Nat) : FirmwareVersionSensor := ⟨major, minor, false, false⟩

/-- The conversion `%d` of `snprintf` applied to a 32-bit word: the decimal digits of
the word read as a signed integer. -/
def printfD (n : Nat) : String :=
  if n % 4294967296 < 2147483648 then Nat.repr (n % 4294967296)
  else "-" ++ Nat.repr (4294967296 - n % 4294967296)

/-- The text `snprintf(result, 20, "%d.%d", major, minor)` leaves in the buffer: at
most 19 characters. -/
def formatVersion (major minor : Nat) : String :=
  String.mk ((printfD major ++ "." ++ printfD minor).data.take 19)

/-- One call of `handleReceivedUnsignedValue`: the new state and the text published,
if any. -/
def handleReceivedUnsignedValue (sensorTypeParam value : Nat) (s : FirmwareVersionSensor) :
    FirmwareVersionSensor × Option String :=
  let valueIndex := sensorTypeParam &&& 0x0f
  let stored : Option FirmwareVersionSensor :=
    if valueIndex = 0 then some { s with major := value, major_known := true }
    else if valueIndex = 1 then some { s with minor := value, minor_known := true }
    else Option.none
  match stored with
  | Option.none => (s, Option.none)
  | some s1 =>
    if s1.major_known && s1.minor_known then (s1, some (formatVersion s1.major s1.minor))
    else (s1, Option.none)

/-- A run of `handleReceivedUnsignedValue` calls, each given as the pair
(sensorTypeParam, value); the result lists what every call published. -/
def run : List (Nat × Nat) → FirmwareVersionSensor →
    FirmwareVersionSensor × List (Option String)
  | [], s => (s, [])
  | c :: cs, s =>
    let r := handleReceivedUnsignedValue c.1 c.2 s
    let q := run cs r.1
    (q.1, r.2 :: q.2)

end FirmwareVersionSensor

/-! ## Well-formed telegrams -/

/-- The shape every write telegram is meant to have: 8 bytes, a data type of warm
water, heating circuit 1 or heating circuit 2 in byte 0, and among bytes 2 to 7
exactly one that differs from the keep byte. -/
def wellFormedTelegram (m : Telegram) : Prop :=
  m.length = 8 ∧
  (m[0]? = some data_type_warm_water ∨ m[0]? = some data_type_heating_circuit_1 ∨
    m[0]? = some data_type_heating_circuit_2) ∧
  ∃ i, 2 ≤ i ∧ i < 8 ∧ m[i]? ≠ some keep ∧
    ∀ j, 2 ≤ j → j < 8 → j ≠ i → m[j]? = some keep

/-! ## Auxiliary facts -/

theorem truncate_of_nonneg {x : ℚ} (hx : 0 ≤ x) : truncate x = ⌊x⌋ := by
  unfold truncate
  rw [Rat.floor_def, Int.tdiv_eq_ediv (Rat.num_nonneg.mpr hx) (Int.ofNat_nonneg _)]

theorem truncate_neg (x : ℚ) : truncate (-x) = -truncate x := by
  unfold truncate
  simp

theorem truncate_of_nonpos {x : ℚ} (hx : x ≤ 0) : truncate x = ⌈x⌉ := by
  have h : truncate (-x) = ⌊-x⌋ := truncate_of_nonneg (by linarith)
  rw [truncate_neg, Int.floor_neg] at h
  omega

/-- A value with a byte-sized integer part converts to that integer part. -/
theorem toUint8_of_bounds {x : ℚ} {n : Nat} (hn : n < 256) (h1 : (n : ℚ) ≤ x)
    (h2 : x < n + 1) : toUint8 x = n := by
  have hx : 0 ≤ x := le_trans (Nat.cast_nonneg n) h1
  have hf : ⌊x⌋ = (n : Int) := by
    rw [Int.floor_eq_iff]
    exact ⟨by exact_mod_cast h1, by exact_mod_cast h2⟩
  unfold toUint8
  rw [truncate_of_nonneg hx, hf]
  omega

/-- A value strictly between -1 and 0 converts to 0: the conversion truncates. -/
theorem toUint8_of_small_neg {x : ℚ} (h1 : -1 < x) (h2 : x ≤ 0) : toUint8 x = 0 := by
  have hc : ⌈x⌉ = (0 : Int) := by
    rw [Int.ceil_eq_iff]
    exact ⟨by simpa using h1, by simpa using h2⟩
  unfold toUint8
  rw [truncate_of_nonpos h2, hc]
  rfl

/-- A nonnegative value below 256 converts to its floor. -/
theorem toUint8_of_nonneg_lt {x : ℚ} (h0 : 0 ≤ x) (h1 : x < 256) :
    (toUint8 x : Int) = ⌊x⌋ := by
  have hf0 : 0 ≤ ⌊x⌋ := Int.floor_nonneg.mpr h0
  have hf1 : ⌊x⌋ < 256 := Int.floor_lt.mpr (by exact_mod_cast h1)
  unfold toUint8
  rw [truncate_of_nonneg h0]
  omega

theorem toUint8_natCast (n : Nat) (hn : n < 256) : toUint8 (n : ℚ) = n :=
  toUint8_of_bounds hn le_rfl (by linarith)

theorem limitValueToRange_of_mem {v lo hi : ℚ} (h1 : lo ≤ v) (h2 : v ≤ hi) :
    limitValueToRange v lo hi = v := by
  unfold limitValueToRange
  rw [if_neg (not_lt.mpr h1), if_neg (not_lt.mpr h2)]

theorem limitValueToRange_of_gt {v lo hi : ℚ} (h : lo ≤ hi) (h2 : hi < v) :
    limitValueToRange v lo hi = hi := by
  unfold limitValueToRange
  rw [if_neg (not_lt.mpr (by linarith)), if_pos h2]

theorem limitValueToRange_mem (v : ℚ) {lo hi : ℚ} (h : lo ≤ hi) :
    lo ≤ limitValueToRange v lo hi ∧ limitValueToRange v lo hi ≤ hi := by
  unfold limitValueToRange
  split_ifs with h1 h2
  · exact ⟨le_rfl, h⟩
  · exact ⟨h, le_rfl⟩
  · exact ⟨not_lt.mp h1, not_lt.mp h2⟩

/-- With the same bound on both sides the clamp returns that bound. -/
theorem limitValueToRange_same (v m : ℚ) : limitValueToRange v m m = m := by
  unfold limitValueToRange
  split_ifs with h1 h2
  · rfl
  · rfl
  · linarith

/-- The Number hands its message to the transport whatever the answer. -/
theorem number_sendAndConfirm_sent (w : Telegram → Bool) (m : Telegram) (c : ℚ)
    (s : BuderusParamNumber) : (s.sendAndConfirm w m c).2.sent = [m] := by
  unfold BuderusParamNumber.sendAndConfirm
  split_ifs <;> rfl

/-- The Select hands its message to the transport whatever the answer. -/
theorem select_sendAndConfirm_sent (w : Telegram → Bool) (m : Telegram) (label : String) :
    (BuderusParamSelect.sendAndConfirm w m label).sent = [m] := by
  unfold BuderusParamSelect.sendAndConfirm
  split_ifs <;> rfl

/-! ## Number: the shape of `loop` -/

theorem number_loop_idle (w : Telegram → Bool) (t : Nat) (s : BuderusParamNumber)
    (h : s.hasPendingWriteRequest = false) : s.loop w t = (s, Effects.none) := by
  simp [BuderusParamNumber.loop, h]

theorem number_loop_waiting (w : Telegram → Bool) (t : Nat) (s : BuderusParamNumber)
    (h : s.windowExpired t = false) : s.loop w t = (s, Effects.none) := by
  have h2 : ¬ sub32 (millis t) s.lastWriteRequest > BuderusParamNumber.writeConsolidationPeriod := by
    simpa [BuderusParamNumber.windowExpired] using h
  simp [BuderusParamNumber.loop, h2]

theorem number_loop_due (w : Telegram → Bool) (t : Nat) (s : BuderusParamNumber)
    (hpend : s.hasPendingWriteRequest = true) (h : s.windowExpired t = true) :
    s.loop w t = s.loopWrite w := by
  have h2 : sub32 (millis t) s.lastWriteRequest > BuderusParamNumber.writeConsolidationPeriod := by
    simpa [BuderusParamNumber.windowExpired] using h
  simp [BuderusParamNumber.loop, hpend, h2]

theorem numberRule_bounds {p : TransmissionParameter} {r : NumberRule}
    (hr : numberRule p = some r) : r.minValue ≤ r.maxValue := by
  cases p <;>
    simp [numberRule, findTelegramBuilderConfiguration, telegramBuilderConfiguration, findIn,
      fallbackNumberRule] at hr <;>
    subst hr <;> norm_num

/-- With a rule, the write of `loop` is one `sendAndConfirm` of the frame of the rule.
The confirmed value `c` is the row maximum or the request clamped to the bounds. -/
theorem number_loopWrite_of_rule (s : BuderusParamNumber) (r : NumberRule)
    (hr : numberRule s.transmissionParameter = some r) :
    ∃ c : ℚ, (c = r.maxValue ∨
        c = limitValueToRange s.pendingWriteValue r.minValue r.maxValue) ∧
      ∀ w, s.loopWrite w = s.sendAndConfirm w (ruleFrame r (ruleByte r c)) c := by
  obtain ⟨p, pend, v, last⟩ := s
  cases p <;>
    simp [numberRule, findTelegramBuilderConfiguration, telegramBuilderConfiguration, findIn,
      fallbackNumberRule] at hr <;>
    subst hr <;>
    first
    | (refine ⟨limitValueToRange v _ _, Or.inr rfl, fun w => ?_⟩
       simp [BuderusParamNumber.loopWrite, BuderusParamNumber.loopFallback,
          findTelegramBuilderConfiguration, telegramBuilderConfiguration, findIn,
          ruleFrame, ruleByte]
       done)
    | (refine ⟨limitValueToRange v _ _, Or.inl (limitValueToRange_same v _), fun w => ?_⟩
       simp [BuderusParamNumber.loopWrite, BuderusParamNumber.buildTelegramSendAndConfirm,
          findTelegramBuilderConfiguration, telegramBuilderConfiguration, findIn,
          ruleFrame, ruleByte])

theorem ruleFrame_length (r : NumberRule) (x : Nat) : (ruleFrame r x).length = 8 := by
  simp [ruleFrame]

theorem numberRule_position {p : TransmissionParameter} {r : NumberRule}
    (hr : numberRule p = some r) : r.telegramValuePosition ≤ 5 := by
  cases p <;>
    simp [numberRule, findTelegramBuilderConfiguration, telegramBuilderConfiguration, findIn,
      fallbackNumberRule] at hr <;>
    subst hr <;> norm_num

theorem ruleFrame_value {r : NumberRule} (x : Nat) (h : r.telegramValuePosition ≤ 5) :
    (ruleFrame r x)[r.telegramValuePosition + 2]? = some x := by
  have : r.telegramValuePosition + 2 < 8 := by omega
  simp [ruleFrame, this]

theorem number_loops_idle (w : Telegram → Bool) (ts : List Nat) (s : BuderusParamNumber)
    (h : s.hasPendingWriteRequest = false) : BuderusParamNumber.loops w ts s = (s, Effects.none) := by
  induction ts with
  | nil => rfl
  | cons t ts ih =>
    simp [BuderusParamNumber.loops, number_loop_idle w t s h, ih, Effects.append, Effects.none]

theorem number_loops_waiting (w : Telegram → Bool) (ts : List Nat) (s : BuderusParamNumber)
    (h : ∀ t ∈ ts, s.windowExpired t = false) :
    BuderusParamNumber.loops w ts s = (s, Effects.none) := by
  induction ts with
  | nil => rfl
  | cons t ts ih =>
    have ht := h t (List.mem_cons_self t ts)
    have hrest := ih (fun u hu => h u (List.mem_cons_of_mem t hu))
    simp [BuderusParamNumber.loops, number_loop_waiting w t s ht, hrest, Effects.append,
      Effects.none]

/-- Against an accepting transport a run of evaluations that contains one past the
window performs the write once and nothing else. -/
theorem number_loops_accepting (w : Telegram → Bool) (m : Telegram) (c : ℚ)
    (s : BuderusParamNumber) (hpend : s.hasPendingWriteRequest = true)
    (hwrite : s.loopWrite w = ({ s with hasPendingWriteRequest := false }, ⟨[m], [c]⟩))
    (ts : List Nat) (h : ∃ t ∈ ts, s.windowExpired t = true) :
    BuderusParamNumber.loops w ts s
      = ({ s with hasPendingWriteRequest := false }, ⟨[m], [c]⟩) := by
  induction ts with
  | nil => simp at h
  | cons t ts ih =>
    cases hexp : s.windowExpired t with
    | true =>
      have hrest := number_loops_idle w ts { s with hasPendingWriteRequest := false } rfl
      simp [BuderusParamNumber.loops, number_loop_due w t s hpend hexp, hwrite, hrest,
        Effects.append, Effects.none]
    | false =>
      have hex : ∃ u ∈ ts, s.windowExpired u = true := by
        obtain ⟨u, hu, hue⟩ := h
        rcases List.mem_cons.mp hu with rfl | hu2
        · rw [hexp] at hue
          exact absurd hue (by decide)
        · exact ⟨u, hu2, hue⟩
      simp [BuderusParamNumber.loops, number_loop_waiting w t s hexp, ih hex, Effects.append,
        Effects.none]

theorem sub32_millis_of_le {t last : Nat} (h1 : last ≤ t) (h2 : t < 4294967296) :
    sub32 (millis t) last = t - last := by
  unfold sub32 millis
  omega

theorem hasEncodingRule_iff (p : TransmissionParameter) :
    hasEncodingRule p = true ↔ ∃ r, numberRule p = some r := by
  unfold hasEncodingRule
  exact Option.isSome_iff_exists

/-- The value byte that encodes the maximum of a rule is the maximum, or twice the
maximum for a half-degree rule. -/
theorem ruleByte_maxValue {p : TransmissionParameter} {r : NumberRule}
    (hr : numberRule p = some r) :
    ∃ n : Nat, ruleByte r r.maxValue = n ∧
      (n : ℚ) = (if r.timesTwo then 2 * r.maxValue else r.maxValue) := by
  cases p <;>
    simp [numberRule, findTelegramBuilderConfiguration, telegramBuilderConfiguration, findIn,
      fallbackNumberRule] at hr <;>
    subst hr <;>
    first
    | (refine ⟨60, ?_, ?_⟩
       · simp only [ruleByte]
         apply toUint8_of_bounds <;> norm_num
       · norm_num)
    | (refine ⟨90, ?_, ?_⟩
       · simp only [ruleByte]
         apply toUint8_of_bounds <;> norm_num
       · norm_num)
    | (refine ⟨10, ?_, ?_⟩
       · simp only [ruleByte]
         apply toUint8_of_bounds <;> norm_num
       · norm_num)

/-! ## Number: in-range requests -/

/-- In the parameter-specific branches with direct encoding (both
`flow_temperature_max` parameters, bounds 20..90, and
`config_heating_circuit_2_design_temperature`, bounds 30..90) an in-range integer
request is written and published as it is. -/
theorem number_fallback_in_range_unchanged (w : Telegram → Bool) (hw : ∀ m, w m = true)
    (s : BuderusParamNumber) (t v : Nat) (r : NumberRule)
    (hp : s.transmissionParameter = config_heating_circuit_1_flow_temperature_max ∨
      s.transmissionParameter = config_heating_circuit_2_flow_temperature_max ∨
      s.transmissionParameter = config_heating_circuit_2_design_temperature)
    (hr : numberRule s.transmissionParameter = some r)
    (hpend : s.hasPendingWriteRequest = true) (hexp : s.windowExpired t = true)
    (hval : s.pendingWriteValue = v) (hlo : r.minValue ≤ v) (hhi : (v : ℚ) ≤ r.maxValue) :
    ∃ m : Telegram, (s.loop w t).2 = ⟨[m], [(v : ℚ)]⟩ ∧ m.length = 8 ∧
      m[r.telegramValuePosition + 2]? = some v := by
  have hexp2 : sub32 (millis t) s.lastWriteRequest > BuderusParamNumber.writeConsolidationPeriod := by
    simpa [BuderusParamNumber.windowExpired] using hexp
  rcases hp with hp | hp | hp <;>
  · rw [hp] at hr
    simp [numberRule, findTelegramBuilderConfiguration, telegramBuilderConfiguration, findIn,
      fallbackNumberRule] at hr
    subst hr
    simp only at hlo hhi
    have hv : v < 256 := by
      have : (v : ℚ) ≤ 90 := hhi
      have : v ≤ 90 := by exact_mod_cast this
      omega
    simp [BuderusParamNumber.loop, hpend, hexp2, BuderusParamNumber.loopWrite, hp,
      findTelegramBuilderConfiguration, telegramBuilderConfiguration, findIn,
      BuderusParamNumber.loopFallback, BuderusParamNumber.sendAndConfirm, hw, hval,
      limitValueToRange_of_mem hlo hhi, toUint8_natCast v hv]

/-- C1 (the code at the failing input): on the table row `config_ww_temperature`,
documented bounds 30..60, a request of 45 lies within the bounds, yet the telegram
carries the value byte 60 and 60 is published; the same happens for every requested
value, because `loop` passes the row maximum as both bounds of the clamp. -/
theorem number_table_row_in_range_request_overwritten :
    ((BuderusParamNumber.control 0 45
        (BuderusParamNumber.create config_ww_temperature 0 0)).loop (fun _ => true) 1001).2
      = ⟨[[0x0c, 0x07, 0x65, 0x65, 0x65, 60, 0x65, 0x65]], [60]⟩ ∧
    ∀ v : ℚ, ((BuderusParamNumber.control 0 v
        (BuderusParamNumber.create config_ww_temperature 0 0)).loop (fun _ => true) 1001).2
      = ⟨[[0x0c, 0x07, 0x65, 0x65, 0x65, 60, 0x65, 0x65]], [60]⟩ := by
  have key : ∀ v : ℚ, limitValueToRange v 60 60 = 60 := fun v => limitValueToRange_same v 60
  have h60 : toUint8 (60 : ℚ) = 60 := toUint8_natCast 60 (by norm_num)
  have main : ∀ v : ℚ, ((BuderusParamNumber.control 0 v
        (BuderusParamNumber.create config_ww_temperature 0 0)).loop (fun _ => true) 1001).2
      = ⟨[[0x0c, 0x07, 0x65, 0x65, 0x65, 60, 0x65, 0x65]], [60]⟩ := by
    intro v
    simp [BuderusParamNumber.loop, BuderusParamNumber.control, BuderusParamNumber.create,
      millis, sub32, BuderusParamNumber.writeConsolidationPeriod, BuderusParamNumber.loopWrite,
      findTelegramBuilderConfiguration, telegramBuilderConfiguration, findIn,
      BuderusParamNumber.buildTelegramSendAndConfirm, BuderusParamNumber.sendAndConfirm,
      key, h60, keep, data_type_warm_water]
  exact ⟨main 45, main⟩

/-! ## Telegram layout -/

/-- C2: for a value position `p` of at most 5, `buildTelegramSendAndConfirm` of the
Number and of the Select hand the same single telegram to the transport; it is 8
bytes long, byte 0 is the data type, byte 1 the offset, byte `p + 2` the value and
every other byte is the keep byte 0x65.  For (0x0c, 0x07, 3, 45) it is
[0x0c, 0x07, 0x65, 0x65, 0x65, 45, 0x65, 0x65]. -/
theorem buildTelegram_layout (w : Telegram → Bool) (d o p x : Nat) (c : ℚ) (label : String)
    (s : BuderusParamNumber) (hp : p ≤ 5) :
    (∃ m : Telegram,
      (s.buildTelegramSendAndConfirm w d o p x c).2.sent = [m] ∧
      (BuderusParamSelect.buildTelegramSendAndConfirm w d o p x label).sent = [m] ∧
      m.length = 8 ∧ m[0]? = some d ∧ m[1]? = some o ∧ m[p + 2]? = some x ∧
      ∀ i, 2 ≤ i → i < 8 → i ≠ p + 2 → m[i]? = some 0x65) ∧
    (s.buildTelegramSendAndConfirm w 0x0c 0x07 3 45 c).2.sent
      = [[0x0c, 0x07, 0x65, 0x65, 0x65, 45, 0x65, 0x65]] ∧
    (BuderusParamSelect.buildTelegramSendAndConfirm w 0x0c 0x07 3 45 label).sent
      = [[0x0c, 0x07, 0x65, 0x65, 0x65, 45, 0x65, 0x65]] := by
  refine ⟨⟨([d, o, keep, keep, keep, keep, keep, keep] : Telegram).set (p + 2) x,
    ?_, ?_, ?_, ?_, ?_, ?_, ?_⟩, ?_, ?_⟩
  · simp [BuderusParamNumber.buildTelegramSendAndConfirm, number_sendAndConfirm_sent]
  · simp [BuderusParamSelect.buildTelegramSendAndConfirm, select_sendAndConfirm_sent]
  · simp
  · simp
  · simp
  · interval_cases p <;> simp
  · intro i h2 h8 hne
    interval_cases p <;> interval_cases i <;> simp_all [keep]
  · simp [BuderusParamNumber.buildTelegramSendAndConfirm, number_sendAndConfirm_sent, keep]
  · simp [BuderusParamSelect.buildTelegramSendAndConfirm, select_sendAndConfirm_sent, keep]

theorem buildTelegram_layout_witness :
    (3 ≤ 5) ∧
    ((∃ m : Telegram,
      ((BuderusParamNumber.create config_ww_temperature 0 0).buildTelegramSendAndConfirm
        (fun _ => true) 0x0c 0x07 3 45 45).2.sent = [m] ∧
      (BuderusParamSelect.buildTelegramSendAndConfirm (fun _ => true) 0x0c 0x07 3 45 "Auto").sent
        = [m] ∧
      m.length = 8 ∧ m[0]? = some 0x0c ∧ m[1]? = some 0x07 ∧ m[3 + 2]? = some 45 ∧
      ∀ i, 2 ≤ i → i < 8 → i ≠ 3 + 2 → m[i]? = some 0x65) ∧
    ((BuderusParamNumber.create config_ww_temperature 0 0).buildTelegramSendAndConfirm
        (fun _ => true) 0x0c 0x07 3 45 45).2.sent
      = [[0x0c, 0x07, 0x65, 0x65, 0x65, 45, 0x65, 0x65]] ∧
    (BuderusParamSelect.buildTelegramSendAndConfirm (fun _ => true) 0x0c 0x07 3 45 "Auto").sent
      = [[0x0c, 0x07, 0x65, 0x65, 0x65, 45, 0x65, 0x65]]) :=
  ⟨by decide, buildTelegram_layout (fun _ => true) 0x0c 0x07 3 45 45 "Auto"
    (BuderusParamNumber.create config_ww_temperature 0 0) (by decide)⟩

/-! ## Number: debounce -/

/-- C3: with an encoding rule and an accepting transport, after control(a) at t=0 and
control(b) at t=500 no evaluation of `loop` up to t=500 and none from t=500 to before
t=1500 submits or publishes anything; any later run of evaluations that contains one
past the window (1500 < t, clock not wrapped) submits exactly one telegram `m` and
publishes exactly one value `c`, and ends with no pending write.  `m` and `c` are fixed
before `a`, the initial state and the evaluation times are chosen: they depend on the
parameter and on `b` alone. -/
theorem number_debounce_latest_request_wins (w : Telegram → Bool) (hw : ∀ m, w m = true)
    (p : TransmissionParameter) (hrule : hasEncodingRule p = true) (b : ℚ) :
    ∃ (m : Telegram) (c : ℚ), m.length = 8 ∧
      ∀ (s0 : BuderusParamNumber) (a : ℚ) (early between later : List Nat),
        s0.transmissionParameter = p →
        (∀ t ∈ early, t ≤ 500) →
        (∀ t ∈ between, 500 ≤ t ∧ t < 1500) →
        (∃ t ∈ later, 1500 < t ∧ t < 4294967296) →
        (BuderusParamNumber.loops w early (s0.control 0 a)).2 = Effects.none ∧
        (BuderusParamNumber.loops w between
          ((BuderusParamNumber.loops w early (s0.control 0 a)).1.control 500 b)).2
            = Effects.none ∧
        BuderusParamNumber.loops w later
          (BuderusParamNumber.loops w between
            ((BuderusParamNumber.loops w early (s0.control 0 a)).1.control 500 b)).1
            = (⟨p, false, b, 500⟩, ⟨[m], [c]⟩) := by
  obtain ⟨r, hr⟩ := (hasEncodingRule_iff p).mp hrule
  obtain ⟨c, -, hwr⟩ := number_loopWrite_of_rule ⟨p, true, b, 500⟩ r hr
  refine ⟨ruleFrame r (ruleByte r c), c, ruleFrame_length r _, ?_⟩
  intro s0 a early between later hp hearly hbetween hlater
  have h1 : BuderusParamNumber.loops w early (s0.control 0 a) = (s0.control 0 a, Effects.none) := by
    apply number_loops_waiting
    intro t ht
    have := hearly t ht
    have hs : sub32 (millis t) (millis 0) = t := by
      unfold sub32 millis
      omega
    simp only [BuderusParamNumber.windowExpired, BuderusParamNumber.control, hs,
      BuderusParamNumber.writeConsolidationPeriod, decide_eq_false_iff_not]
    omega
  have hctl : (s0.control 0 a).control 500 b = ⟨p, true, b, 500⟩ := by
    simp [BuderusParamNumber.control, millis, hp]
  have h2 : BuderusParamNumber.loops w between ⟨p, true, b, 500⟩
      = (⟨p, true, b, 500⟩, Effects.none) := by
    apply number_loops_waiting
    intro t ht
    have := hbetween t ht
    have hs : sub32 (millis t) 500 = t - 500 := sub32_millis_of_le this.1 (by omega)
    simp only [BuderusParamNumber.windowExpired, hs, BuderusParamNumber.writeConsolidationPeriod,
      decide_eq_false_iff_not]
    omega
  have h3 : BuderusParamNumber.loops w later ⟨p, true, b, 500⟩
      = (⟨p, false, b, 500⟩, ⟨[ruleFrame r (ruleByte r c)], [c]⟩) := by
    apply number_loops_accepting w _ c ⟨p, true, b, 500⟩ rfl
    · rw [hwr w]
      simp [BuderusParamNumber.sendAndConfirm, hw]
    · obtain ⟨t, ht, hlo, hhi⟩ := hlater
      refine ⟨t, ht, ?_⟩
      have hs : sub32 (millis t) 500 = t - 500 := sub32_millis_of_le (by omega) hhi
      simp only [BuderusParamNumber.windowExpired, hs,
        BuderusParamNumber.writeConsolidationPeriod, decide_eq_true_eq]
      omega
  rw [h1]
  simp only [hctl, h2, h3]
  exact ⟨trivial, trivial, trivial⟩

theorem number_debounce_latest_request_wins_witness :
    (∀ m : Telegram, (fun _ : Telegram => true) m = true) ∧
    hasEncodingRule config_heating_circuit_2_design_temperature = true ∧
    ∃ (m : Telegram) (c : ℚ), m.length = 8 ∧
      (BuderusParamNumber.loops (fun _ => true) [100, 250]
        ((BuderusParamNumber.create config_heating_circuit_2_design_temperature 0 0).control
          0 35)).2 = Effects.none ∧
      (BuderusParamNumber.loops (fun _ => true) [600, 1499]
        ((BuderusParamNumber.loops (fun _ => true) [100, 250]
          ((BuderusParamNumber.create config_heating_circuit_2_design_temperature 0 0).control
            0 35)).1.control 500 40)).2 = Effects.none ∧
      BuderusParamNumber.loops (fun _ => true) [1500, 1501, 3000]
        (BuderusParamNumber.loops (fun _ => true) [600, 1499]
          ((BuderusParamNumber.loops (fun _ => true) [100, 250]
            ((BuderusParamNumber.create config_heating_circuit_2_design_temperature 0 0).control
              0 35)).1.control 500 40)).1
        = (⟨config_heating_circuit_2_design_temperature, false, 40, 500⟩, ⟨[m], [c]⟩) := by
  refine ⟨fun _ => rfl, by decide, ?_⟩
  obtain ⟨m, c, hlen, h⟩ := number_debounce_latest_request_wins (fun _ => true) (fun _ => rfl)
    config_heating_circuit_2_design_temperature (by decide) 40
  exact ⟨m, c, hlen,
    h (BuderusParamNumber.create config_heating_circuit_2_design_temperature 0 0) 35
      [100, 250] [600, 1499] [1500, 1501, 3000] rfl (by decide) (by decide) (by decide)⟩

/-- C4 (the claim fails here): a Number with an encoding rule and a request made at
t=500 is evaluated at t=1500, exactly 1000 ms later.  The elapsed time is at least
the window, yet `loop` submits nothing and the request stays pending. -/
theorem number_loop_at_exactly_window_silent :
    hasEncodingRule config_heating_circuit_2_design_temperature = true ∧
    ((BuderusParamNumber.create config_heating_circuit_2_design_temperature 0 0).control
      500 45).hasPendingWriteRequest = true ∧
    sub32 (millis 1500) ((BuderusParamNumber.create
      config_heating_circuit_2_design_temperature 0 0).control 500 45).lastWriteRequest ≥ 1000 ∧
    (((BuderusParamNumber.create config_heating_circuit_2_design_temperature 0 0).control
      500 45).loop (fun _ => true) 1500).2.sent = [] ∧
    (((BuderusParamNumber.create config_heating_circuit_2_design_temperature 0 0).control
      500 45).loop (fun _ => true) 1500).1.hasPendingWriteRequest = true := by
  decide

/-- C4 (amended): for a Number with a pending write and an encoding rule, `loop`
evaluated at clock reading `now` submits a telegram, exactly one, if and only if
`now - lastWriteRequest` (in 32-bit arithmetic) is strictly greater than 1000 ms;
otherwise it submits nothing. -/
theorem number_loop_submits_iff_window_exceeded (w : Telegram → Bool)
    (s : BuderusParamNumber) (t : Nat) (hpend : s.hasPendingWriteRequest = true)
    (hrule : hasEncodingRule s.transmissionParameter = true) :
    ((s.loop w t).2.sent.length = 1 ↔ sub32 (millis t) s.lastWriteRequest > 1000) ∧
    ((s.loop w t).2.sent ≠ [] ↔ sub32 (millis t) s.lastWriteRequest > 1000) := by
  obtain ⟨r, hr⟩ := (hasEncodingRule_iff _).mp hrule
  obtain ⟨c, -, hwr⟩ := number_loopWrite_of_rule s r hr
  by_cases h : sub32 (millis t) s.lastWriteRequest > 1000
  · have hexp : s.windowExpired t = true := by
      simpa [BuderusParamNumber.windowExpired, BuderusParamNumber.writeConsolidationPeriod] using h
    rw [number_loop_due w t s hpend hexp, hwr w, number_sendAndConfirm_sent]
    simp [h]
  · have hexp : s.windowExpired t = false := by
      simpa [BuderusParamNumber.windowExpired, BuderusParamNumber.writeConsolidationPeriod] using h
    rw [number_loop_waiting w t s hexp]
    simp [h, Effects.none]

theorem number_loop_submits_iff_window_exceeded_witness :
    ((BuderusParamNumber.create config_heating_circuit_2_design_temperature 0 0).control
      500 45).hasPendingWriteRequest = true ∧
    hasEncodingRule ((BuderusParamNumber.create config_heating_circuit_2_design_temperature
      0 0).control 500 45).transmissionParameter = true ∧
    (((((BuderusParamNumber.create config_heating_circuit_2_design_temperature 0 0).control
        500 45).loop (fun _ => true) 1501).2.sent.length = 1 ↔
      sub32 (millis 1501) ((BuderusParamNumber.create
        config_heating_circuit_2_design_temperature 0 0).control 500 45).lastWriteRequest
        > 1000) ∧
    ((((BuderusParamNumber.create config_heating_circuit_2_design_temperature 0 0).control
        500 45).loop (fun _ => true) 1501).2.sent ≠ [] ↔
      sub32 (millis 1501) ((BuderusParamNumber.create
        config_heating_circuit_2_design_temperature 0 0).control 500 45).lastWriteRequest
        > 1000)) :=
  ⟨by decide, by decide,
    number_loop_submits_iff_window_exceeded (fun _ => true)
      ((BuderusParamNumber.create config_heating_circuit_2_design_temperature 0 0).control
        500 45) 1501 (by decide) (by decide)⟩

/-! ## Number: clamping -/

/-- C5: for a Number with an encoding rule of bounds [min, max], a pending write past
the window and an accepting transport: a request above max publishes max and submits
one 8-byte telegram whose value byte encodes max (max itself, or twice max under a
half-degree rule); for every request the one published value lies within [min, max].
Requesting 95 on `config_heating_circuit_1_design_temperature` (30..90) writes the
byte 90 and publishes 90. -/
theorem number_request_above_maximum_clamped (w : Telegram → Bool) (hw : ∀ m, w m = true)
    (s : BuderusParamNumber) (t : Nat) (r : NumberRule)
    (hr : numberRule s.transmissionParameter = some r)
    (hpend : s.hasPendingWriteRequest = true) (hexp : s.windowExpired t = true) :
    (r.maxValue < s.pendingWriteValue →
      ∃ (m : Telegram) (n : Nat), (s.loop w t).2 = ⟨[m], [r.maxValue]⟩ ∧ m.length = 8 ∧
        m[r.telegramValuePosition + 2]? = some n ∧
        (n : ℚ) = (if r.timesTwo then 2 * r.maxValue else r.maxValue)) ∧
    (∃ c : ℚ, (s.loop w t).2.published = [c] ∧ r.minValue ≤ c ∧ c ≤ r.maxValue) ∧
    (((BuderusParamNumber.create config_heating_circuit_1_design_temperature 0 0).control
        0 95).loop (fun _ => true) 1001).2
      = ⟨[[0x07, 0x0e, 0x65, 0x65, 0x65, 0x65, 90, 0x65]], [90]⟩ := by
  obtain ⟨c, hc, hwr⟩ := number_loopWrite_of_rule s r hr
  have hb := numberRule_bounds hr
  have hloop : s.loop w t
      = ({ s with hasPendingWriteRequest := false }, ⟨[ruleFrame r (ruleByte r c)], [c]⟩) := by
    rw [number_loop_due w t s hpend hexp, hwr w]
    simp [BuderusParamNumber.sendAndConfirm, hw]
  refine ⟨?_, ?_, ?_⟩
  · intro hgt
    have hcmax : c = r.maxValue := by
      rcases hc with h | h
      · exact h
      · rw [h, limitValueToRange_of_gt hb hgt]
    obtain ⟨n, hn, hnq⟩ := ruleByte_maxValue hr
    refine ⟨ruleFrame r n, n, ?_, ruleFrame_length r n,
      ruleFrame_value n (numberRule_position hr), hnq⟩
    rw [hloop, hcmax, hn]
  · refine ⟨c, by rw [hloop], ?_⟩
    rcases hc with h | h
    · rw [h]
      exact ⟨hb, le_rfl⟩
    · rw [h]
      exact limitValueToRange_mem _ hb
  · have h90 : toUint8 (90 : ℚ) = 90 := toUint8_natCast 90 (by norm_num)
    simp [BuderusParamNumber.loop, BuderusParamNumber.control, BuderusParamNumber.create,
      millis, sub32, BuderusParamNumber.writeConsolidationPeriod, BuderusParamNumber.loopWrite,
      findTelegramBuilderConfiguration, telegramBuilderConfiguration, findIn,
      BuderusParamNumber.buildTelegramSendAndConfirm, BuderusParamNumber.sendAndConfirm,
      limitValueToRange_same, h90, keep, data_type_heating_circuit_1]

theorem number_request_above_maximum_clamped_witness :
    (∀ m : Telegram, (fun _ : Telegram => true) m = true) ∧
    numberRule ((BuderusParamNumber.create config_heating_circuit_2_flow_temperature_max
      0 0).control 0 95).transmissionParameter
      = some ⟨20, 90, false, 0x08, 0x0e, 2⟩ ∧
    ((BuderusParamNumber.create config_heating_circuit_2_flow_temperature_max
      0 0).control 0 95).hasPendingWriteRequest = true ∧
    ((BuderusParamNumber.create config_heating_circuit_2_flow_temperature_max
      0 0).control 0 95).windowExpired 1001 = true ∧
    ∃ c : ℚ, (((BuderusParamNumber.create config_heating_circuit_2_flow_temperature_max
      0 0).control 0 95).loop (fun _ => true) 1001).2.published = [c] ∧
      (20 : ℚ) ≤ c ∧ c ≤ 90 :=
  ⟨fun _ => rfl, by decide, by decide, by decide,
    (number_request_above_maximum_clamped (fun _ => true) (fun _ => rfl)
      ((BuderusParamNumber.create config_heating_circuit_2_flow_temperature_max 0 0).control
        0 95) 1001 ⟨20, 90, false, 0x08, 0x0e, 2⟩ (by decide) (by decide) (by decide)).2.1⟩

/-! ## Number: transport rejection -/

/-- C6: for a Number with a pending write past the window and an encoding rule, `loop`
hands exactly one telegram `m` to the transport.  If the transport rejects it, the
component state is unchanged (pending flag, pending value and request time) and
nothing is published, so any later evaluation past the window hands over the same
telegram `m`, whatever the transport.  If it accepts, the pending flag is cleared
and one value is published.  The flag is cleared, and a value published, if and
only if the transport accepts. -/
theorem number_rejected_write_retained (w : Telegram → Bool) (s : BuderusParamNumber) (t : Nat)
    (hpend : s.hasPendingWriteRequest = true) (hexp : s.windowExpired t = true)
    (hrule : hasEncodingRule s.transmissionParameter = true) :
    ∃ (m : Telegram) (c : ℚ), (s.loop w t).2.sent = [m] ∧
      (w m = false → s.loop w t = (s, ⟨[m], []⟩) ∧
        ∀ (w2 : Telegram → Bool) (t2 : Nat), s.windowExpired t2 = true →
          ((s.loop w t).1.loop w2 t2).2.sent = [m]) ∧
      (w m = true →
        s.loop w t = ({ s with hasPendingWriteRequest := false }, ⟨[m], [c]⟩)) ∧
      ((s.loop w t).1.hasPendingWriteRequest = false ↔ w m = true) ∧
      ((s.loop w t).2.published ≠ [] ↔ w m = true) := by
  obtain ⟨r, hr⟩ := (hasEncodingRule_iff _).mp hrule
  obtain ⟨c, -, hwr⟩ := number_loopWrite_of_rule s r hr
  have hloop : ∀ (w2 : Telegram → Bool) (t2 : Nat), s.windowExpired t2 = true →
      s.loop w2 t2 = s.sendAndConfirm w2 (ruleFrame r (ruleByte r c)) c := by
    intro w2 t2 h2
    rw [number_loop_due w2 t2 s hpend h2, hwr w2]
  refine ⟨ruleFrame r (ruleByte r c), c, ?_, ?_, ?_, ?_, ?_⟩
  · rw [hloop w t hexp, number_sendAndConfirm_sent]
  · intro hrej
    have hsame : s.loop w t = (s, ⟨[ruleFrame r (ruleByte r c)], []⟩) := by
      rw [hloop w t hexp]
      simp [BuderusParamNumber.sendAndConfirm, hrej]
    refine ⟨hsame, ?_⟩
    intro w2 t2 h2
    rw [hsame]
    simp only
    rw [hloop w2 t2 h2, number_sendAndConfirm_sent]
  · intro hacc
    rw [hloop w t hexp]
    simp [BuderusParamNumber.sendAndConfirm, hacc]
  · rw [hloop w t hexp]
    cases hm : w (ruleFrame r (ruleByte r c)) <;>
      simp [BuderusParamNumber.sendAndConfirm, hm, hpend]
  · rw [hloop w t hexp]
    cases hm : w (ruleFrame r (ruleByte r c)) <;>
      simp [BuderusParamNumber.sendAndConfirm, hm]

theorem number_rejected_write_retained_witness :
    ((BuderusParamNumber.create config_heating_circuit_2_design_temperature 0 0).control
      500 45).hasPendingWriteRequest = true ∧
    ((BuderusParamNumber.create config_heating_circuit_2_design_temperature 0 0).control
      500 45).windowExpired 1501 = true ∧
    hasEncodingRule ((BuderusParamNumber.create config_heating_circuit_2_design_temperature
      0 0).control 500 45).transmissionParameter = true ∧
    ∃ m : Telegram,
      (((BuderusParamNumber.create config_heating_circuit_2_design_temperature 0 0).control
        500 45).loop (fun _ => false) 1501).2.sent = [m] := by
  refine ⟨by decide, by decide, by decide, ?_⟩
  obtain ⟨m, c, h, -⟩ := number_rejected_write_retained (fun _ => false)
    ((BuderusParamNumber.create config_heating_circuit_2_design_temperature 0 0).control 500 45)
    1501 (by decide) (by decide) (by decide)
  exact ⟨m, h⟩

/-! ## Number: half-degree encoding -/

/-- C7 (the code at two failing inputs).  On `config_heating_circuit_2_room_temperature_offset`
(bounds -5..5) a request of -0.5 is published as -0.5 but the value byte is 0, not
255 (-1 modulo 256): the conversion truncates -1 + 0.5 toward zero.  On the table row
`config_heating_circuit_1_room_target_temperature_day` (bounds 10..30) a request of 20
is published as 30 with value byte 60, because the row maximum is passed as both
bounds of the clamp. -/
theorem number_half_degree_encoding_at_failing_inputs :
    (((BuderusParamNumber.create config_heating_circuit_2_room_temperature_offset 0 0).control
        0 (-1/2)).loop (fun _ => true) 1001).2
      = ⟨[[0x08, 0x31, 0x65, 0x65, 0x65, 0, 0x65, 0x65]], [-1/2]⟩ ∧
    (((BuderusParamNumber.create config_heating_circuit_1_room_target_temperature_day
        0 0).control 0 20).loop (fun _ => true) 1001).2
      = ⟨[[0x07, 0x00, 0x65, 0x65, 0x65, 60, 0x65, 0x65]], [30]⟩ := by
  have hlim : limitValueToRange (-1/2) (-5) 5 = -1/2 :=
    limitValueToRange_of_mem (by norm_num) (by norm_num)
  have h0 : toUint8 ((-1/2 : ℚ) * 2 + 1/2) = 0 :=
    toUint8_of_small_neg (by norm_num) (by norm_num)
  have h60 : toUint8 ((30 : ℚ) * 2 + 1/2) = 60 :=
    toUint8_of_bounds (by norm_num) (by norm_num) (by norm_num)
  have e1 : (((BuderusParamNumber.create config_heating_circuit_2_room_temperature_offset
        0 0).control 0 (-1/2)).loop (fun _ => true) 1001).2
      = ⟨[[0x08, 0x31, 0x65, 0x65, 0x65,
          toUint8 (limitValueToRange (-1/2) (-5) 5 * 2 + 1/2), 0x65, 0x65]],
        [limitValueToRange (-1/2) (-5) 5]⟩ := rfl
  have e2 : (((BuderusParamNumber.create config_heating_circuit_1_room_target_temperature_day
        0 0).control 0 20).loop (fun _ => true) 1001).2
      = ⟨[[0x07, 0x00, 0x65, 0x65, 0x65,
          toUint8 (limitValueToRange 20 30 30 * 2 + 1/2), 0x65, 0x65]],
        [limitValueToRange 20 30 30]⟩ := rfl
  rw [e1, e2, hlim, h0, limitValueToRange_same, h60]
  exact ⟨rfl, rfl⟩

/-- In the parameter-specific half-degree branches (`room_target_temperature_day` of
circuit 2, bounds 10..30, and both `room_temperature_offset` parameters, bounds -5..5)
the published value is the request clamped to the bounds, and the value byte is the
conversion of twice that value plus one half; when that sum is not negative the byte
is its floor, which is twice the value rounded to the nearest integer, halves up. -/
theorem number_half_degree_fallback_encoding (w : Telegram → Bool) (hw : ∀ m, w m = true)
    (s : BuderusParamNumber) (t : Nat) (r : NumberRule)
    (hp : s.transmissionParameter = config_heating_circuit_2_room_target_temperature_day ∨
      s.transmissionParameter = config_heating_circuit_1_room_temperature_offset ∨
      s.transmissionParameter = config_heating_circuit_2_room_temperature_offset)
    (hr : numberRule s.transmissionParameter = some r)
    (hpend : s.hasPendingWriteRequest = true) (hexp : s.windowExpired t = true) :
    ∃ m : Telegram,
      (s.loop w t).2
        = ⟨[m], [limitValueToRange s.pendingWriteValue r.minValue r.maxValue]⟩ ∧
      m.length = 8 ∧
      m[r.telegramValuePosition + 2]?
        = some (toUint8 (limitValueToRange s.pendingWriteValue r.minValue r.maxValue * 2 + 1/2)) ∧
      (0 ≤ limitValueToRange s.pendingWriteValue r.minValue r.maxValue * 2 + 1/2 →
        (toUint8 (limitValueToRange s.pendingWriteValue r.minValue r.maxValue * 2 + 1/2) : Int)
          = ⌊limitValueToRange s.pendingWriteValue r.minValue r.maxValue * 2 + 1/2⌋) := by
  have hb := numberRule_bounds hr
  have hmem := limitValueToRange_mem s.pendingWriteValue hb
  have hmax : r.maxValue ≤ 30 := by
    rcases hp with hp | hp | hp <;>
    · rw [hp] at hr
      simp [numberRule, findTelegramBuilderConfiguration, telegramBuilderConfiguration, findIn,
        fallbackNumberRule] at hr
      subst hr
      norm_num
  refine ⟨ruleFrame r
    (toUint8 (limitValueToRange s.pendingWriteValue r.minValue r.maxValue * 2 + 1/2)),
    ?_, ruleFrame_length r _, ruleFrame_value _ (numberRule_position hr), ?_⟩
  · rw [number_loop_due w t s hpend hexp]
    rcases hp with hp | hp | hp <;>
    · rw [hp] at hr
      simp [numberRule, findTelegramBuilderConfiguration, telegramBuilderConfiguration, findIn,
        fallbackNumberRule] at hr
      subst hr
      simp [BuderusParamNumber.loopWrite, BuderusParamNumber.loopFallback, hp,
        findTelegramBuilderConfiguration, telegramBuilderConfiguration, findIn,
        BuderusParamNumber.sendAndConfirm, hw, ruleFrame]
  · intro h0
    exact toUint8_of_nonneg_lt h0 (by linarith [hmem.2])

/-! ## Assembler: one call -/

open MultiParameterUnsignedIntegerAssembler in
theorem assembler_call_invalid (d v : Nat) (s : MultiParameterUnsignedIntegerAssembler)
    (h : subIndex d > 2) : handleReceivedUnsignedValue d v s = (s, Option.none) := by
  unfold subIndex at h
  simp [handleReceivedUnsignedValue, h]

open MultiParameterUnsignedIntegerAssembler in
theorem assembler_call_state (d v : Nat) (s : MultiParameterUnsignedIntegerAssembler)
    (h : subIndex d < 3) :
    (handleReceivedUnsignedValue d v s).1
      = ⟨Function.update s.components ⟨subIndex d, h⟩ v,
         Function.update s.component_known ⟨subIndex d, h⟩ true⟩ := by
  unfold subIndex at h
  have h2 : ¬ (d &&& 15 > 2) := by omega
  unfold handleReceivedUnsignedValue
  simp only [h2, dite_false, subIndex]
  split_ifs <;> rfl

open MultiParameterUnsignedIntegerAssembler in
theorem assembler_call_published (d v : Nat) (s : MultiParameterUnsignedIntegerAssembler) :
    (handleReceivedUnsignedValue d v s).2
      = if subIndex d = 0 ∧ s.component_known 1 = true ∧ s.component_known 2 = true then
          some (add32 (shl8 (add32 (shl8 (s.components 2)) (s.components 1))) v)
        else Option.none := by
  unfold subIndex
  by_cases h : d &&& 15 > 2
  · have h0 : ¬ (d &&& 15 = 0) := by omega
    simp [handleReceivedUnsignedValue, h, h0]
  · by_cases h0 : d &&& 15 = 0
    · have hi : (⟨d &&& 15, by omega⟩ : Fin 3) = 0 := Fin.ext h0
      simp [handleReceivedUnsignedValue, h0, hi, Function.update]
      split_ifs <;> rfl
    · simp [handleReceivedUnsignedValue, h, h0]

open MultiParameterUnsignedIntegerAssembler in
/-- A call for another sub-index leaves slot `i` and its flag alone. -/
theorem assembler_call_other_slot (d v : Nat) (s : MultiParameterUnsignedIntegerAssembler)
    (i : Fin 3) (h : subIndex d ≠ i.val) :
    (handleReceivedUnsignedValue d v s).1.components i = s.components i ∧
    (handleReceivedUnsignedValue d v s).1.component_known i = s.component_known i := by
  by_cases hv : subIndex d > 2
  · rw [assembler_call_invalid d v s hv]
    exact ⟨rfl, rfl⟩
  · have hlt : subIndex d < 3 := by omega
    have hne : i ≠ ⟨subIndex d, hlt⟩ := fun e => h (by rw [e])
    rw [assembler_call_state d v s hlt]
    exact ⟨Function.update_noteq hne _ _, Function.update_noteq hne _ _⟩

open MultiParameterUnsignedIntegerAssembler in
/-- A call for sub-index `i` stores the value in slot `i` and marks it known. -/
theorem assembler_call_same_slot (d v : Nat) (s : MultiParameterUnsignedIntegerAssembler)
    (i : Fin 3) (h : subIndex d = i.val) :
    (handleReceivedUnsignedValue d v s).1.components i = v ∧
    (handleReceivedUnsignedValue d v s).1.component_known i = true := by
  have hlt : subIndex d < 3 := by omega
  have he : i = ⟨subIndex d, hlt⟩ := Fin.ext h.symm
  rw [assembler_call_state d v s hlt, he]
  exact ⟨Function.update_same _ _ _, Function.update_same _ _ _⟩

/-! ## Assembler: runs of calls -/

open MultiParameterUnsignedIntegerAssembler in
theorem assembler_run_append (xs ys : List (Nat × Nat))
    (s : MultiParameterUnsignedIntegerAssembler) :
    run (xs ++ ys) s = ((run ys (run xs s).1).1, (run xs s).2 ++ (run ys (run xs s).1).2) := by
  induction xs generalizing s with
  | nil => rfl
  | cons c cs ih => simp [run, ih]

open MultiParameterUnsignedIntegerAssembler in
theorem lastReceived_none_cons {i : Nat} {c : Nat × Nat} {cs : List (Nat × Nat)}
    (h : lastReceived i (c :: cs) = Option.none) :
    lastReceived i cs = Option.none ∧ subIndex c.1 ≠ i := by
  unfold lastReceived at h
  cases hcs : lastReceived i cs with
  | some v => simp [hcs] at h
  | none =>
    rw [hcs] at h
    refine ⟨rfl, ?_⟩
    intro he
    simp [he] at h

open MultiParameterUnsignedIntegerAssembler in
/-- The value last received for a sub-index was carried by one of the calls. -/
theorem lastReceived_mem {i v : Nat} {cs : List (Nat × Nat)}
    (h : lastReceived i cs = some v) : ∃ c ∈ cs, subIndex c.1 = i ∧ c.2 = v := by
  induction cs with
  | nil => simp [lastReceived] at h
  | cons c cs ih =>
    unfold lastReceived at h
    cases hcs : lastReceived i cs with
    | some u =>
      rw [hcs] at h
      obtain ⟨c2, hc2, hh⟩ := ih (by rw [hcs]; exact h)
      exact ⟨c2, List.mem_cons_of_mem c hc2, hh⟩
    | none =>
      rw [hcs] at h
      by_cases he : subIndex c.1 = i
      · simp [he] at h
        exact ⟨c, List.mem_cons_self c cs, he, h⟩
      · simp [he] at h

open MultiParameterUnsignedIntegerAssembler in
theorem assembler_run_slot_untouched (cs : List (Nat × Nat))
    (s : MultiParameterUnsignedIntegerAssembler) (i : Fin 3)
    (h : lastReceived i.val cs = Option.none) :
    (run cs s).1.components i = s.components i ∧
    (run cs s).1.component_known i = s.component_known i := by
  induction cs generalizing s with
  | nil => exact ⟨rfl, rfl⟩
  | cons c cs ih =>
    obtain ⟨hcs, hne⟩ := lastReceived_none_cons h
    have h1 := ih (handleReceivedUnsignedValue c.1 c.2 s).1 hcs
    have h2 := assembler_call_other_slot c.1 c.2 s i hne
    simp only [run]
    exact ⟨h1.1.trans h2.1, h1.2.trans h2.2⟩

open MultiParameterUnsignedIntegerAssembler in
/-- After a run, a slot that was received holds the value received last and is known. -/
theorem assembler_run_slot_last (cs : List (Nat × Nat))
    (s : MultiParameterUnsignedIntegerAssembler) (i : Fin 3) (v : Nat)
    (h : lastReceived i.val cs = some v) :
    (run cs s).1.components i = v ∧ (run cs s).1.component_known i = true := by
  induction cs generalizing s with
  | nil => simp [lastReceived] at h
  | cons c cs ih =>
    unfold lastReceived at h
    simp only [run]
    cases hcs : lastReceived i.val cs with
    | some u =>
      rw [hcs] at h
      exact ih (handleReceivedUnsignedValue c.1 c.2 s).1 (by rw [hcs]; exact h)
    | none =>
      rw [hcs] at h
      by_cases he : subIndex c.1 = i.val
      · simp [he] at h
        have h1 := assembler_run_slot_untouched cs (handleReceivedUnsignedValue c.1 c.2 s).1 i hcs
        have h2 := assembler_call_same_slot c.1 c.2 s i he
        rw [h1.1, h1.2, h2.1, h2.2]
        exact ⟨h, rfl⟩
      · simp [he] at h

open MultiParameterUnsignedIntegerAssembler in
/-- A slot known after a run was known before it or was received during it. -/
theorem assembler_run_known_origin (cs : List (Nat × Nat))
    (s : MultiParameterUnsignedIntegerAssembler) (i : Fin 3)
    (h : (run cs s).1.component_known i = true) :
    s.component_known i = true ∨ ∃ c ∈ cs, subIndex c.1 = i.val := by
  induction cs generalizing s with
  | nil => exact Or.inl h
  | cons c cs ih =>
    simp only [run] at h
    rcases ih _ h with h1 | ⟨c2, hc2, he⟩
    · by_cases he : subIndex c.1 = i.val
      · exact Or.inr ⟨c, List.mem_cons_self c cs, he⟩
      · rw [(assembler_call_other_slot c.1 c.2 s i he).2] at h1
        exact Or.inl h1
    · exact Or.inr ⟨c2, List.mem_cons_of_mem c hc2, he⟩

/-! ## Assembler: what is published -/

/-- C8: in any run of calls with byte-sized values in which sub-indices 1 and 2 were
each received, a following call with sub-index 0 publishes f2 * 65536 + f1 * 256 + f0,
where f1 and f2 are the values last received for sub-indices 1 and 2 and f0 is the
value of the call itself, which is then the value last received for sub-index 0; the
published value is below 2^24.  The starting state is arbitrary. -/
theorem assembler_publishes_assembled_value (s : MultiParameterUnsignedIntegerAssembler)
    (pre : List (Nat × Nat)) (d0 f0 f1 f2 : Nat)
    (hbytes : ∀ c ∈ pre, c.2 < 256) (hf0 : f0 < 256)
    (hd : MultiParameterUnsignedIntegerAssembler.subIndex d0 = 0)
    (h1 : MultiParameterUnsignedIntegerAssembler.lastReceived 1 pre = some f1)
    (h2 : MultiParameterUnsignedIntegerAssembler.lastReceived 2 pre = some f2) :
    (MultiParameterUnsignedIntegerAssembler.handleReceivedUnsignedValue d0 f0
        (MultiParameterUnsignedIntegerAssembler.run pre s).1).2
      = some (f2 * 65536 + f1 * 256 + f0) ∧
    (MultiParameterUnsignedIntegerAssembler.run (pre ++ [(d0, f0)]) s).2.getLast?
      = some (some (f2 * 65536 + f1 * 256 + f0)) ∧
    MultiParameterUnsignedIntegerAssembler.lastReceived 0 (pre ++ [(d0, f0)]) = some f0 ∧
    MultiParameterUnsignedIntegerAssembler.lastReceived 1 (pre ++ [(d0, f0)]) = some f1 ∧
    MultiParameterUnsignedIntegerAssembler.lastReceived 2 (pre ++ [(d0, f0)]) = some f2 ∧
    f2 * 65536 + f1 * 256 + f0 < 16777216 := by
  have hf1 : f1 < 256 := by
    obtain ⟨c, hc, -, hv⟩ := lastReceived_mem h1
    rw [← hv]
    exact hbytes c hc
  have hf2 : f2 < 256 := by
    obtain ⟨c, hc, -, hv⟩ := lastReceived_mem h2
    rw [← hv]
    exact hbytes c hc
  have s1 := assembler_run_slot_last pre s 1 f1 h1
  have s2 := assembler_run_slot_last pre s 2 f2 h2
  have hpub : (MultiParameterUnsignedIntegerAssembler.handleReceivedUnsignedValue d0 f0
        (MultiParameterUnsignedIntegerAssembler.run pre s).1).2
      = some (f2 * 65536 + f1 * 256 + f0) := by
    rw [assembler_call_published, if_pos ⟨hd, s1.2, s2.2⟩, s1.1, s2.1]
    congr 1
    unfold add32 shl8
    omega
  have hlast : ∀ (i : Nat) (cs : List (Nat × Nat)),
      MultiParameterUnsignedIntegerAssembler.lastReceived i (cs ++ [(d0, f0)])
        = if i = 0 then some f0 else MultiParameterUnsignedIntegerAssembler.lastReceived i cs := by
    intro i cs
    induction cs with
    | nil =>
      by_cases hi : i = 0
      · simp [MultiParameterUnsignedIntegerAssembler.lastReceived, hd, hi]
      · have : ¬ (0 = i) := fun e => hi e.symm
        simp [MultiParameterUnsignedIntegerAssembler.lastReceived, hd, hi, this]
    | cons c cs ih =>
      rw [List.cons_append, MultiParameterUnsignedIntegerAssembler.lastReceived, ih]
      by_cases hi : i = 0
      · simp [hi]
      · simp [hi, MultiParameterUnsignedIntegerAssembler.lastReceived]
  refine ⟨hpub, ?_, ?_, ?_, ?_, by omega⟩
  · rw [assembler_run_append]
    simp [MultiParameterUnsignedIntegerAssembler.run, hpub]
  · rw [hlast]
    simp
  · rw [hlast]
    simpa using h1
  · rw [hlast]
    simpa using h2

theorem assembler_publishes_assembled_value_witness :
    (∀ c ∈ [((2 : Nat), (3 : Nat)), (1, 2), (0x13, 9), (1, 7)], c.2 < 256) ∧ 4 < 256 ∧
    MultiParameterUnsignedIntegerAssembler.subIndex 0x20 = 0 ∧
    MultiParameterUnsignedIntegerAssembler.lastReceived 1 [(2, 3), (1, 2), (0x13, 9), (1, 7)]
      = some 7 ∧
    MultiParameterUnsignedIntegerAssembler.lastReceived 2 [(2, 3), (1, 2), (0x13, 9), (1, 7)]
      = some 3 ∧
    (MultiParameterUnsignedIntegerAssembler.handleReceivedUnsignedValue 0x20 4
        (MultiParameterUnsignedIntegerAssembler.run [(2, 3), (1, 2), (0x13, 9), (1, 7)]
          (MultiParameterUnsignedIntegerAssembler.create (fun _ => 0))).1).2
      = some (3 * 65536 + 7 * 256 + 4) :=
  ⟨by decide, by decide, by decide, by decide, by decide,
    (assembler_publishes_assembled_value
      (MultiParameterUnsignedIntegerAssembler.create (fun _ => 0))
      [(2, 3), (1, 2), (0x13, 9), (1, 7)] 0x20 4 7 3 (by decide) (by decide) (by decide)
      (by decide) (by decide)).1⟩

/-- C9: starting from the constructed state, a call publishes only if its sub-index is
0 and sub-indices 1 and 2 were each received in an earlier call (sub-index 0 is then
received by the call itself).  In particular no call of a run that consists of
fragments 1 and 2 only publishes, and a call with sub-index 0 made before both 1 and
2 arrived publishes nothing. -/
theorem assembler_publishes_only_when_complete (components : Fin 3 → Nat) :
    (∀ (pre : List (Nat × Nat)) (d v x : Nat),
      (MultiParameterUnsignedIntegerAssembler.handleReceivedUnsignedValue d v
        (MultiParameterUnsignedIntegerAssembler.run pre
          (MultiParameterUnsignedIntegerAssembler.create components)).1).2 = some x →
      MultiParameterUnsignedIntegerAssembler.subIndex d = 0 ∧
      (∃ c ∈ pre, MultiParameterUnsignedIntegerAssembler.subIndex c.1 = 1) ∧
      (∃ c ∈ pre, MultiParameterUnsignedIntegerAssembler.subIndex c.1 = 2)) ∧
    (∀ calls : List (Nat × Nat),
      (∀ c ∈ calls, MultiParameterUnsignedIntegerAssembler.subIndex c.1 = 1 ∨
        MultiParameterUnsignedIntegerAssembler.subIndex c.1 = 2) →
      ∀ o ∈ (MultiParameterUnsignedIntegerAssembler.run calls
          (MultiParameterUnsignedIntegerAssembler.create components)).2, o = Option.none) ∧
    (∀ (pre : List (Nat × Nat)) (d v : Nat),
      (¬ (∃ c ∈ pre, MultiParameterUnsignedIntegerAssembler.subIndex c.1 = 1) ∨
        ¬ (∃ c ∈ pre, MultiParameterUnsignedIntegerAssembler.subIndex c.1 = 2)) →
      (MultiParameterUnsignedIntegerAssembler.handleReceivedUnsignedValue d v
        (MultiParameterUnsignedIntegerAssembler.run pre
          (MultiParameterUnsignedIntegerAssembler.create components)).1).2 = Option.none) := by
  have main : ∀ (pre : List (Nat × Nat)) (d v x : Nat),
      (MultiParameterUnsignedIntegerAssembler.handleReceivedUnsignedValue d v
        (MultiParameterUnsignedIntegerAssembler.run pre
          (MultiParameterUnsignedIntegerAssembler.create components)).1).2 = some x →
      MultiParameterUnsignedIntegerAssembler.subIndex d = 0 ∧
      (∃ c ∈ pre, MultiParameterUnsignedIntegerAssembler.subIndex c.1 = 1) ∧
      (∃ c ∈ pre, MultiParameterUnsignedIntegerAssembler.subIndex c.1 = 2) := by
    intro pre d v x hx
    rw [assembler_call_published] at hx
    split_ifs at hx with hc
    obtain ⟨hd, hk1, hk2⟩ := hc
    refine ⟨hd, ?_, ?_⟩
    · rcases assembler_run_known_origin pre _ 1 hk1 with h | h
      · simp [MultiParameterUnsignedIntegerAssembler.create] at h
      · exact h
    · rcases assembler_run_known_origin pre _ 2 hk2 with h | h
      · simp [MultiParameterUnsignedIntegerAssembler.create] at h
      · exact h
  refine ⟨main, ?_, ?_⟩
  · intro calls hcalls
    have gen : ∀ (cs : List (Nat × Nat)) (s : MultiParameterUnsignedIntegerAssembler),
        (∀ c ∈ cs, MultiParameterUnsignedIntegerAssembler.subIndex c.1 = 1 ∨
          MultiParameterUnsignedIntegerAssembler.subIndex c.1 = 2) →
        ∀ o ∈ (MultiParameterUnsignedIntegerAssembler.run cs s).2, o = Option.none := by
      intro cs
      induction cs with
      | nil =>
        intro s _ o ho
        simp [MultiParameterUnsignedIntegerAssembler.run] at ho
      | cons c cs ih =>
        intro s hcs o ho
        simp only [MultiParameterUnsignedIntegerAssembler.run, List.mem_cons] at ho
        rcases ho with ho | ho
        · rw [ho, assembler_call_published]
          have hc := hcs c (List.mem_cons_self c cs)
          have h0 : ¬ (MultiParameterUnsignedIntegerAssembler.subIndex c.1 = 0) := by omega
          simp [h0]
        · exact ih _ (fun c2 hc2 => hcs c2 (List.mem_cons_of_mem c hc2)) o ho
    exact gen calls _ hcalls
  · intro pre d v hmiss
    cases hres : (MultiParameterUnsignedIntegerAssembler.handleReceivedUnsignedValue d v
        (MultiParameterUnsignedIntegerAssembler.run pre
          (MultiParameterUnsignedIntegerAssembler.create components)).1).2 with
    | none => rfl
    | some x =>
      obtain ⟨-, e1, e2⟩ := main pre d v x hres
      rcases hmiss with h | h
      · exact absurd e1 h
      · exact absurd e2 h

theorem assembler_publishes_only_when_complete_witness :
    (MultiParameterUnsignedIntegerAssembler.handleReceivedUnsignedValue 0 4
        (MultiParameterUnsignedIntegerAssembler.run [(2, 3), (1, 2)]
          (MultiParameterUnsignedIntegerAssembler.create (fun _ => 0))).1).2
      = some 197124 ∧
    (MultiParameterUnsignedIntegerAssembler.subIndex 0 = 0 ∧
      (∃ c ∈ [((2 : Nat), (3 : Nat)), (1, 2)],
        MultiParameterUnsignedIntegerAssembler.subIndex c.1 = 1) ∧
      (∃ c ∈ [((2 : Nat), (3 : Nat)), (1, 2)],
        MultiParameterUnsignedIntegerAssembler.subIndex c.1 = 2)) :=
  ⟨by decide,
    (assembler_publishes_only_when_complete (fun _ => 0)).1 [(2, 3), (1, 2)] 0 4 197124
      (by decide)⟩

/-- C10: a call whose discriminator has low four bits greater than 2 publishes nothing
and returns the state it was given: the three slots and the three flags are unchanged. -/
theorem assembler_rejects_invalid_sub_index (s : MultiParameterUnsignedIntegerAssembler)
    (sensorTypeParam value : Nat) (h : sensorTypeParam &&& 0x0f > 2) :
    MultiParameterUnsignedIntegerAssembler.handleReceivedUnsignedValue sensorTypeParam value s
      = (s, Option.none) ∧
    (∀ i : Fin 3,
      (MultiParameterUnsignedIntegerAssembler.handleReceivedUnsignedValue sensorTypeParam value
        s).1.components i = s.components i ∧
      (MultiParameterUnsignedIntegerAssembler.handleReceivedUnsignedValue sensorTypeParam value
        s).1.component_known i = s.component_known i) := by
  have e := assembler_call_invalid sensorTypeParam value s h
  refine ⟨e, fun i => ?_⟩
  rw [e]
  exact ⟨rfl, rfl⟩

theorem assembler_rejects_invalid_sub_index_witness :
    (0x13 &&& 0x0f > 2) ∧
    (MultiParameterUnsignedIntegerAssembler.handleReceivedUnsignedValue 0x13 9
        (MultiParameterUnsignedIntegerAssembler.create (fun _ => 0))).2 = Option.none :=
  ⟨by decide, by
    rw [(assembler_rejects_invalid_sub_index
      (MultiParameterUnsignedIntegerAssembler.create (fun _ => 0)) 0x13 9 (by decide)).1]⟩

/-! ## Firmware version -/

set_option maxRecDepth 100000 in
theorem repr_byte_length : ∀ n < 256, (Nat.repr n).length ≤ 3 := by decide

/-- For byte-sized fields the buffer holds the two decimal renderings in full. -/
theorem formatVersion_of_bytes {major minor : Nat} (h1 : major < 256) (h2 : minor < 256) :
    FirmwareVersionSensor.formatVersion major minor
      = Nat.repr major ++ "." ++ Nat.repr minor := by
  have p1 : FirmwareVersionSensor.printfD major = Nat.repr major := by
    have e : major % 4294967296 = major := Nat.mod_eq_of_lt (by omega)
    have l : major < 2147483648 := by omega
    simp [FirmwareVersionSensor.printfD, e, l]
  have p2 : FirmwareVersionSensor.printfD minor = Nat.repr minor := by
    have e : minor % 4294967296 = minor := Nat.mod_eq_of_lt (by omega)
    have l : minor < 2147483648 := by omega
    simp [FirmwareVersionSensor.printfD, e, l]
  have l1 := repr_byte_length major h1
  have l2 := repr_byte_length minor h2
  have hlen : (Nat.repr major ++ "." ++ Nat.repr minor).data.length ≤ 19 := by
    have e1 : (Nat.repr major).data.length = (Nat.repr major).length := rfl
    have e2 : (Nat.repr minor).data.length = (Nat.repr minor).length := rfl
    simp only [String.data_append, List.length_append, e1, e2]
    have e3 : (['.'] : List Char).length = 1 := rfl
    omega
  unfold FirmwareVersionSensor.formatVersion
  rw [p1, p2, List.take_of_length_le hlen]

open MultiParameterUnsignedIntegerAssembler in
theorem lastReceived_append_single (i d v : Nat) (cs : List (Nat × Nat)) :
    lastReceived i (cs ++ [(d, v)])
      = if subIndex d = i then some v else lastReceived i cs := by
  induction cs with
  | nil =>
    by_cases h : subIndex d = i <;> simp [lastReceived, h]
  | cons c cs ih =>
    rw [List.cons_append, lastReceived, ih]
    by_cases h : subIndex d = i
    · simp [h]
    · simp [h, lastReceived]

open MultiParameterUnsignedIntegerAssembler in
/-- After a run the version fields hold what was received last, and a field is known
exactly if it was known before or received during the run. -/
theorem firmware_run_state (cs : List (Nat × Nat)) (s : FirmwareVersionSensor) :
    (FirmwareVersionSensor.run cs s).1.major = (lastReceived 0 cs).getD s.major ∧
    (FirmwareVersionSensor.run cs s).1.minor = (lastReceived 1 cs).getD s.minor ∧
    (FirmwareVersionSensor.run cs s).1.major_known
      = ((lastReceived 0 cs).isSome || s.major_known) ∧
    (FirmwareVersionSensor.run cs s).1.minor_known
      = ((lastReceived 1 cs).isSome || s.minor_known) := by
  induction cs generalizing s with
  | nil => simp [FirmwareVersionSensor.run, lastReceived]
  | cons c cs ih =>
    obtain ⟨i1, i2, i3, i4⟩ := ih (FirmwareVersionSensor.handleReceivedUnsignedValue c.1 c.2 s).1
    simp only [FirmwareVersionSensor.run]
    rw [i1, i2, i3, i4]
    simp only [lastReceived]
    by_cases h0 : subIndex c.1 = 0
    · have h1 : ¬ (subIndex c.1 = 1) := by omega
      have h0b : c.1 &&& 15 = 0 := h0
      cases hA : lastReceived 0 cs <;> cases hB : lastReceived 1 cs <;>
        simp [FirmwareVersionSensor.handleReceivedUnsignedValue, h0, h1, h0b] <;>
        split_ifs <;> simp
    · by_cases h1 : subIndex c.1 = 1
      · have h1b : c.1 &&& 15 = 1 := h1
        cases hA : lastReceived 0 cs <;> cases hB : lastReceived 1 cs <;>
          simp [FirmwareVersionSensor.handleReceivedUnsignedValue, h0, h1, h1b] <;>
          split_ifs <;> simp
      · have h0b : ¬ (c.1 &&& 15 = 0) := h0
        have h1b : ¬ (c.1 &&& 15 = 1) := h1
        cases hA : lastReceived 0 cs <;> cases hB : lastReceived 1 cs <;>
          simp [FirmwareVersionSensor.handleReceivedUnsignedValue, h0, h1, h0b, h1b]

open MultiParameterUnsignedIntegerAssembler in
theorem lastReceived_isSome_iff (i : Nat) (cs : List (Nat × Nat)) :
    (lastReceived i cs).isSome = true ↔ ∃ c ∈ cs, subIndex c.1 = i := by
  constructor
  · intro h
    obtain ⟨v, hv⟩ := Option.isSome_iff_exists.mp h
    obtain ⟨c, hc, he, -⟩ := lastReceived_mem hv
    exact ⟨c, hc, he⟩
  · rintro ⟨c, hc, he⟩
    induction cs with
    | nil => simp at hc
    | cons c2 cs ih =>
      unfold lastReceived
      cases hcs : lastReceived i cs with
      | some u => rfl
      | none =>
        rcases List.mem_cons.mp hc with rfl | hc2
        · simp [he]
        · have := ih hc2
          rw [hcs] at this
          simp at this

open MultiParameterUnsignedIntegerAssembler in
theorem firmware_call_published (d v : Nat) (s : FirmwareVersionSensor) :
    (FirmwareVersionSensor.handleReceivedUnsignedValue d v s).2
      = if subIndex d = 0 then
          (if s.minor_known = true then some (FirmwareVersionSensor.formatVersion v s.minor)
            else Option.none)
        else if subIndex d = 1 then
          (if s.major_known = true then some (FirmwareVersionSensor.formatVersion s.major v)
            else Option.none)
        else Option.none := by
  unfold subIndex
  by_cases h0 : d &&& 15 = 0
  · simp [FirmwareVersionSensor.handleReceivedUnsignedValue, h0]
    split_ifs <;> rfl
  · by_cases h1 : d &&& 15 = 1
    · simp [FirmwareVersionSensor.handleReceivedUnsignedValue, h1]
      split_ifs <;> rfl
    · simp [FirmwareVersionSensor.handleReceivedUnsignedValue, h0, h1]

open MultiParameterUnsignedIntegerAssembler in
theorem firmware_call_invalid (d v : Nat) (s : FirmwareVersionSensor) (h : subIndex d > 1) :
    FirmwareVersionSensor.handleReceivedUnsignedValue d v s = (s, Option.none) := by
  unfold subIndex at h
  have h0 : ¬ (d &&& 15 = 0) := by omega
  have h1 : ¬ (d &&& 15 = 1) := by omega
  simp [FirmwareVersionSensor.handleReceivedUnsignedValue, h0, h1]

/-- C11: from the constructed state and with byte-sized values, a call with sub-index
0 (major) or 1 (minor) publishes if and only if, the call included, both sub-index 0
and sub-index 1 have been received; the text is then the decimal rendering of the
major received last, a dot, and the decimal rendering of the minor received last.  A
call with any other sub-index publishes nothing and returns the state unchanged.
Major 21, minor 7, minor 8 publish nothing, "21.7", "21.8"; a run of majors alone
never publishes. -/
theorem firmware_version_publishes_when_both_known (major0 minor0 : Nat)
    (pre : List (Nat × Nat)) (d v : Nat) (hbytes : ∀ c ∈ pre, c.2 < 256) (hv : v < 256) :
    (MultiParameterUnsignedIntegerAssembler.subIndex d ≤ 1 →
      (((FirmwareVersionSensor.handleReceivedUnsignedValue d v
          (FirmwareVersionSensor.run pre (FirmwareVersionSensor.create major0 minor0)).1).2
            ≠ Option.none) ↔
        (∃ c ∈ pre ++ [(d, v)], MultiParameterUnsignedIntegerAssembler.subIndex c.1 = 0) ∧
        (∃ c ∈ pre ++ [(d, v)], MultiParameterUnsignedIntegerAssembler.subIndex c.1 = 1)) ∧
      (∀ a b : Nat,
        MultiParameterUnsignedIntegerAssembler.lastReceived 0 (pre ++ [(d, v)]) = some a →
        MultiParameterUnsignedIntegerAssembler.lastReceived 1 (pre ++ [(d, v)]) = some b →
        (FirmwareVersionSensor.handleReceivedUnsignedValue d v
          (FirmwareVersionSensor.run pre (FirmwareVersionSensor.create major0 minor0)).1).2
            = some (Nat.repr a ++ "." ++ Nat.repr b))) ∧
    (MultiParameterUnsignedIntegerAssembler.subIndex d > 1 →
      FirmwareVersionSensor.handleReceivedUnsignedValue d v
          (FirmwareVersionSensor.run pre (FirmwareVersionSensor.create major0 minor0)).1
        = ((FirmwareVersionSensor.run pre (FirmwareVersionSensor.create major0 minor0)).1,
            Option.none)) ∧
    (FirmwareVersionSensor.run [(0, 21), (1, 7), (1, 8)]
        (FirmwareVersionSensor.create major0 minor0)).2
      = [Option.none, some "21.7", some "21.8"] ∧
    (∀ calls : List (Nat × Nat),
      (∀ c ∈ calls, MultiParameterUnsignedIntegerAssembler.subIndex c.1 = 0) →
      ∀ o ∈ (FirmwareVersionSensor.run calls
        (FirmwareVersionSensor.create major0 minor0)).2, o = Option.none) := by
  obtain ⟨e1, e2, e3, e4⟩ :=
    firmware_run_state pre (FirmwareVersionSensor.create major0 minor0)
  have hbyte : ∀ (i x : Nat),
      MultiParameterUnsignedIntegerAssembler.lastReceived i pre = some x → x < 256 := by
    intro i x hx
    obtain ⟨c, hc, -, hcv⟩ := lastReceived_mem hx
    rw [← hcv]
    exact hbytes c hc
  have hk1 : (FirmwareVersionSensor.create major0 minor0).major_known = false := rfl
  have hk2 : (FirmwareVersionSensor.create major0 minor0).minor_known = false := rfl
  rw [hk1, Bool.or_false] at e3
  rw [hk2, Bool.or_false] at e4
  have x1 : FirmwareVersionSensor.formatVersion 21 7 = "21.7" := by decide
  have x2 : FirmwareVersionSensor.formatVersion 21 8 = "21.8" := by decide
  refine ⟨?_, fun h => firmware_call_invalid d v _ h, ?_, ?_⟩
  · intro hd
    have hcases : MultiParameterUnsignedIntegerAssembler.subIndex d = 0 ∨
        MultiParameterUnsignedIntegerAssembler.subIndex d = 1 := by omega
    simp only [← lastReceived_isSome_iff, lastReceived_append_single]
    rw [firmware_call_published, e1, e2, e3, e4]
    rcases hcases with h0 | h1
    · have h01 : ¬ ((0 : Nat) = 1) := by decide
      simp only [h0, if_true, h01, if_false]
      cases hB : MultiParameterUnsignedIntegerAssembler.lastReceived 1 pre with
      | none => simp
      | some b =>
        have hb := hbyte 1 b hB
        simp [formatVersion_of_bytes hv hb]
    · have h10 : ¬ ((1 : Nat) = 0) := by decide
      simp only [h1, if_true, h10, if_false]
      cases hA : MultiParameterUnsignedIntegerAssembler.lastReceived 0 pre with
      | none => simp
      | some a =>
        have ha := hbyte 0 a hA
        simp [formatVersion_of_bytes ha hv]
  · simp [FirmwareVersionSensor.run, FirmwareVersionSensor.handleReceivedUnsignedValue,
      FirmwareVersionSensor.create, x1, x2]
  · intro calls hcalls
    have gen : ∀ (cs : List (Nat × Nat)) (s : FirmwareVersionSensor),
        s.minor_known = false →
        (∀ c ∈ cs, MultiParameterUnsignedIntegerAssembler.subIndex c.1 = 0) →
        ∀ o ∈ (FirmwareVersionSensor.run cs s).2, o = Option.none := by
      intro cs
      induction cs with
      | nil =>
        intro s _ _ o ho
        simp [FirmwareVersionSensor.run] at ho
      | cons c cs ih =>
        intro s hs hcs o ho
        have hc0 := hcs c (List.mem_cons_self c cs)
        simp only [FirmwareVersionSensor.run, List.mem_cons] at ho
        rcases ho with ho | ho
        · rw [ho, firmware_call_published]
          simp [hc0, hs]
        · refine ih _ ?_ (fun c2 hc2 => hcs c2 (List.mem_cons_of_mem c hc2)) o ho
          have hc0b : c.1 &&& 15 = 0 := hc0
          simp only [FirmwareVersionSensor.handleReceivedUnsignedValue, hc0b]
          simp only [if_true]
          split_ifs <;> exact hs
    exact gen calls _ rfl hcalls

theorem firmware_version_publishes_when_both_known_witness :
    (∀ c ∈ [((0 : Nat), (21 : Nat)), (1, 7)], c.2 < 256) ∧ 8 < 256 ∧
    MultiParameterUnsignedIntegerAssembler.subIndex 1 ≤ 1 ∧
    MultiParameterUnsignedIntegerAssembler.lastReceived 0 ([(0, 21), (1, 7)] ++ [(1, 8)])
      = some 21 ∧
    MultiParameterUnsignedIntegerAssembler.lastReceived 1 ([(0, 21), (1, 7)] ++ [(1, 8)])
      = some 8 ∧
    (FirmwareVersionSensor.handleReceivedUnsignedValue 1 8
      (FirmwareVersionSensor.run [(0, 21), (1, 7)] (FirmwareVersionSensor.create 0 0)).1).2
        = some (Nat.repr 21 ++ "." ++ Nat.repr 8) :=
  ⟨by decide, by decide, by decide, by decide, by decide,
    ((firmware_version_publishes_when_both_known 0 0 [(0, 21), (1, 7)] 1 8 (by decide)
      (by decide)).1 (by decide)).2 21 8 (by decide) (by decide)⟩

/-! ## Select: decode -/

/-- Before the index `indexOf` returns, the list does not hold the value. -/
theorem getElem?_ne_of_lt_indexOf {α : Type} [DecidableEq α] (v : α) (l : List α) (j : Nat)
    (hj : j < l.indexOf v) : l[j]? ≠ some v := by
  induction l generalizing j with
  | nil => simp
  | cons a l ih =>
    by_cases ha : a = v
    · rw [List.indexOf_cons_eq l ha] at hj
      omega
    · rw [List.indexOf_cons_ne l ha] at hj
      cases j with
      | zero =>
        simp only [List.getElem?_cons_zero, ne_eq, Option.some.injEq]
        exact ha
      | succ k =>
        simp only [List.getElem?_cons_succ]
        exact ih k (by omega)

/-- C12: for a Select whose code list is no longer than its label list and holds
bytes: a raw value that occurs in `mappings` publishes exactly the label at the index
of its first occurrence; a raw value that does not occur in `mappings`, which includes
every value above 255, publishes nothing. -/
theorem select_decode_first_occurrence (s : BuderusParamSelect) (sensorTypeParam v : Nat)
    (hlen : s.mappings.length ≤ s.options.length) (hbytes : ∀ m ∈ s.mappings, m < 256) :
    (v ∈ s.mappings →
      ∃ (i : Nat) (label : String), s.mappings[i]? = some v ∧
        (∀ j < i, s.mappings[j]? ≠ some v) ∧ s.options[i]? = some label ∧
        s.handleReceivedUnsignedValue sensorTypeParam v = some ⟨[], [label]⟩) ∧
    (v ∉ s.mappings → s.handleReceivedUnsignedValue sensorTypeParam v = some Effects.none) ∧
    (255 < v → s.handleReceivedUnsignedValue sensorTypeParam v = some Effects.none) := by
  have hnot : v ∉ s.mappings →
      s.handleReceivedUnsignedValue sensorTypeParam v = some Effects.none := by
    intro h
    simp [BuderusParamSelect.handleReceivedUnsignedValue, List.indexOf_eq_length.mpr h]
  refine ⟨?_, hnot, ?_⟩
  · intro hmem
    have hlt : s.mappings.indexOf v < s.mappings.length := List.indexOf_lt_length.mpr hmem
    have hopt : s.mappings.indexOf v < s.options.length := by omega
    refine ⟨s.mappings.indexOf v, s.options[s.mappings.indexOf v], ?_, ?_, ?_, ?_⟩
    · exact List.getElem?_indexOf hmem
    · intro j hj
      exact getElem?_ne_of_lt_indexOf v s.mappings j hj
    · exact List.getElem?_eq_getElem hopt
    · have hne : ¬ (s.mappings.indexOf v = s.mappings.length) := by omega
      simp [BuderusParamSelect.handleReceivedUnsignedValue, hne,
        BuderusParamSelect.optionAt, List.getElem?_eq_getElem hopt]
  · intro hbig
    apply hnot
    intro hmem
    have := hbytes v hmem
    omega

theorem select_decode_first_occurrence_witness :
    ([0, 2, 1, 2].length ≤ ["Auto", "Day", "Night", "Off"].length) ∧
    (∀ m ∈ [0, 2, 1, 2], m < 256) ∧ 2 ∈ [0, 2, 1, 2] ∧
    ∃ (i : Nat) (label : String), [0, 2, 1, 2][i]? = some 2 ∧
      (∀ j < i, [0, 2, 1, 2][j]? ≠ some 2) ∧
      ["Auto", "Day", "Night", "Off"][i]? = some label ∧
      BuderusParamSelect.handleReceivedUnsignedValue 0 2
        ⟨config_ww_operation_mode, [0, 2, 1, 2], ["Auto", "Day", "Night", "Off"]⟩
          = some ⟨[], [label]⟩ :=
  ⟨by decide, by decide, by decide,
    (select_decode_first_occurrence
      ⟨config_ww_operation_mode, [0, 2, 1, 2], ["Auto", "Day", "Night", "Off"]⟩ 0 2
      (by decide) (by decide)).1 (by decide)⟩

/-! ## Select: control -/

theorem select_index_of_eq_none {options : List String} {label : String}
    (h : label ∉ options) : BuderusParamSelect.index_of options label = Option.none := by
  have : ¬ (options.indexOf label < options.length) := by
    rw [List.indexOf_lt_length]
    exact h
  simp [BuderusParamSelect.index_of, this]

theorem select_index_of_eq_some {options : List String} {label : String} {i : Nat}
    (h : BuderusParamSelect.index_of options label = some i) :
    i = options.indexOf label ∧ label ∈ options ∧ options[i]? = some label := by
  unfold BuderusParamSelect.index_of at h
  split_ifs at h with hlt
  have hi : options.indexOf label = i := Option.some.inj h
  have hmem : label ∈ options := List.indexOf_lt_length.mp hlt
  refine ⟨hi.symm, hmem, ?_⟩
  rw [← hi]
  exact List.getElem?_indexOf hmem

theorem select_index_of_mem {options : List String} {label : String}
    (h : label ∈ options) :
    BuderusParamSelect.index_of options label = some (options.indexOf label) := by
  have : options.indexOf label < options.length := List.indexOf_lt_length.mpr h
  simp [BuderusParamSelect.index_of, this]

/-- With a rule, `control` of a mapped label refuses a code above the maximum and
otherwise performs one `sendAndConfirm` of the frame of the rule. -/
theorem select_control_of_rule (w : Telegram → Bool) (s : BuderusParamSelect) (label : String)
    (i c : Nat) (r : SelectRule)
    (hi : BuderusParamSelect.index_of s.options label = some i)
    (hc : s.mappings[i]? = some c) (hr : selectRule s.transmissionParameter = some r) :
    s.control w label
      = some (if c > r.maxSelectIndex then Effects.none
          else BuderusParamSelect.sendAndConfirm w (selectFrame r c) label) := by
  obtain ⟨p, mappings, options⟩ := s
  simp only at hi hc hr
  cases p <;>
    simp [selectRule, findTelegramBuilderConfiguration, telegramBuilderConfiguration, findIn]
      at hr <;>
    subst hr
  all_goals
    simp [BuderusParamSelect.control, hi, hc, BuderusParamSelect.controlFallback,
      findTelegramBuilderConfiguration, telegramBuilderConfiguration, findIn,
      BuderusParamSelect.buildTelegramSendAndConfirm, selectFrame]
  all_goals
    split_ifs <;> rfl

/-- Without a rule, `control` of a mapped label does nothing. -/
theorem select_control_no_rule (w : Telegram → Bool) (s : BuderusParamSelect) (label : String)
    (i c : Nat) (hi : BuderusParamSelect.index_of s.options label = some i)
    (hc : s.mappings[i]? = some c) (hr : selectRule s.transmissionParameter = Option.none) :
    s.control w label = some Effects.none := by
  obtain ⟨p, mappings, options⟩ := s
  simp only at hi hc hr
  cases p <;>
    simp [selectRule, findTelegramBuilderConfiguration, telegramBuilderConfiguration, findIn]
      at hr <;>
    simp [BuderusParamSelect.control, hi, hc, BuderusParamSelect.controlFallback,
      findTelegramBuilderConfiguration, telegramBuilderConfiguration, findIn]

/-- C13: `control` submits no telegram and publishes nothing (a) for a label that is
not among the labels of the component, (b) for a mapped label whose device code
exceeds the maximum of the rule of the parameter, which is 2 for the table row
`config_heating_circuit_1_operation_mode` and in both fallback branches, and (c) for
a parameter with neither a select table row nor a fallback branch; in case (c) a label
whose index lies beyond `mappings` ends the call in `mappings.at`, also without a
telegram or a publication. -/
theorem select_control_rejects (w : Telegram → Bool) (s : BuderusParamSelect) (label : String) :
    (label ∉ s.options → s.control w label = some Effects.none) ∧
    (∀ (i c : Nat) (r : SelectRule),
      BuderusParamSelect.index_of s.options label = some i → s.mappings[i]? = some c →
      selectRule s.transmissionParameter = some r → c > r.maxSelectIndex →
      s.control w label = some Effects.none) ∧
    (selectRule s.transmissionParameter = Option.none →
      s.control w label = some Effects.none ∨
      (s.control w label = Option.none ∧
        ∃ i, BuderusParamSelect.index_of s.options label = some i ∧ s.mappings.length ≤ i)) ∧
    selectRule config_heating_circuit_1_operation_mode = some ⟨2, 0x07, 0x00, 4⟩ ∧
    selectRule config_heating_circuit_2_operation_mode = some ⟨2, 0x08, 0x00, 4⟩ ∧
    selectRule config_ww_operation_mode = some ⟨2, 0x0c, 0x0e, 0⟩ ∧
    (∀ p, (selectRule p).isSome = true ↔
      p = config_heating_circuit_1_operation_mode ∨
      p = config_heating_circuit_2_operation_mode ∨ p = config_ww_operation_mode) := by
  refine ⟨?_, ?_, ?_, by decide, by decide, by decide, ?_⟩
  · intro h
    simp [BuderusParamSelect.control, select_index_of_eq_none h]
  · intro i c r hi hc hr hgt
    rw [select_control_of_rule w s label i c r hi hc hr, if_pos hgt]
  · intro hr
    cases hi : BuderusParamSelect.index_of s.options label with
    | none =>
      left
      simp [BuderusParamSelect.control, hi]
    | some i =>
      cases hc : s.mappings[i]? with
      | none =>
        right
        refine ⟨by simp [BuderusParamSelect.control, hi, hc], i, rfl, ?_⟩
        exact List.getElem?_eq_none_iff.mp hc
      | some c =>
        left
        exact select_control_no_rule w s label i c hi hc hr
  · intro p
    cases p <;>
      simp [selectRule, findTelegramBuilderConfiguration, telegramBuilderConfiguration, findIn]

theorem select_control_rejects_witness :
    "Holiday" ∉ ["Auto", "Day", "Night"] ∧
    BuderusParamSelect.control (fun _ => true) "Holiday"
      ⟨config_ww_operation_mode, [0, 1, 2], ["Auto", "Day", "Night"]⟩ = some Effects.none :=
  ⟨by decide,
    (select_control_rejects (fun _ => true)
      ⟨config_ww_operation_mode, [0, 1, 2], ["Auto", "Day", "Night"]⟩ "Holiday").1
      (by decide)⟩

theorem select_sendAndConfirm_eq (w : Telegram → Bool) (m : Telegram) (label : String) :
    BuderusParamSelect.sendAndConfirm w m label
      = ⟨[m], if w m = true then [label] else []⟩ := by
  unfold BuderusParamSelect.sendAndConfirm
  split_ifs <;> rfl

/-- C14: for a Select bound to `config_heating_circuit_1_operation_mode` (table row),
`config_heating_circuit_2_operation_mode` or `config_ww_operation_mode` (fallback
branches) and a label of the component whose device code `c` is at most 2, `control`
hands exactly one telegram to the transport, [0x07,0x00,0x65,0x65,0x65,0x65,c,0x65],
[0x08,0x00,0x65,0x65,0x65,0x65,c,0x65] or [0x0c,0x0e,c,0x65,0x65,0x65,0x65,0x65], and
publishes the requested label if the transport accepts it and nothing otherwise. -/
theorem select_control_operation_mode (w : Telegram → Bool) (s : BuderusParamSelect)
    (label : String) (i c : Nat)
    (hi : BuderusParamSelect.index_of s.options label = some i)
    (hc : s.mappings[i]? = some c) (hmax : c ≤ 2) :
    (s.transmissionParameter = config_heating_circuit_1_operation_mode →
      s.control w label = some ⟨[[0x07, 0x00, 0x65, 0x65, 0x65, 0x65, c, 0x65]],
        if w [0x07, 0x00, 0x65, 0x65, 0x65, 0x65, c, 0x65] = true then [label] else []⟩) ∧
    (s.transmissionParameter = config_heating_circuit_2_operation_mode →
      s.control w label = some ⟨[[0x08, 0x00, 0x65, 0x65, 0x65, 0x65, c, 0x65]],
        if w [0x08, 0x00, 0x65, 0x65, 0x65, 0x65, c, 0x65] = true then [label] else []⟩) ∧
    (s.transmissionParameter = config_ww_operation_mode →
      s.control w label = some ⟨[[0x0c, 0x0e, c, 0x65, 0x65, 0x65, 0x65, 0x65]],
        if w [0x0c, 0x0e, c, 0x65, 0x65, 0x65, 0x65, 0x65] = true then [label] else []⟩) := by
  have hle : ¬ (c > 2) := by omega
  refine ⟨?_, ?_, ?_⟩
  · intro hp
    have hr : selectRule s.transmissionParameter = some ⟨2, 0x07, 0x00, 4⟩ := by
      rw [hp]
      decide
    rw [select_control_of_rule w s label i c _ hi hc hr, if_neg hle, select_sendAndConfirm_eq]
    rfl
  · intro hp
    have hr : selectRule s.transmissionParameter = some ⟨2, 0x08, 0x00, 4⟩ := by
      rw [hp]
      decide
    rw [select_control_of_rule w s label i c _ hi hc hr, if_neg hle, select_sendAndConfirm_eq]
    rfl
  · intro hp
    have hr : selectRule s.transmissionParameter = some ⟨2, 0x0c, 0x0e, 0⟩ := by
      rw [hp]
      decide
    rw [select_control_of_rule w s label i c _ hi hc hr, if_neg hle, select_sendAndConfirm_eq]
    rfl

theorem select_control_operation_mode_witness :
    BuderusParamSelect.index_of ["Auto", "Day", "Night"] "Night" = some 2 ∧
    [0, 2, 1][2]? = some 1 ∧ 1 ≤ 2 ∧
    BuderusParamSelect.control (fun _ => true) "Night"
      ⟨config_ww_operation_mode, [0, 2, 1], ["Auto", "Day", "Night"]⟩
      = some ⟨[[0x0c, 0x0e, 1, 0x65, 0x65, 0x65, 0x65, 0x65]],
        if (fun _ : Telegram => true) [0x0c, 0x0e, 1, 0x65, 0x65, 0x65, 0x65, 0x65] = true
          then ["Night"] else []⟩ :=
  ⟨by decide, by decide, by decide,
    (select_control_operation_mode (fun _ => true)
      ⟨config_ww_operation_mode, [0, 2, 1], ["Auto", "Day", "Night"]⟩ "Night" 2 1
      (by decide) (by decide) (by decide)).2.2 rfl⟩

/-! ## Number: values received while a write is pending -/

theorem number_loopWrite_no_rule (w : Telegram → Bool) (s : BuderusParamNumber)
    (hr : numberRule s.transmissionParameter = Option.none) :
    s.loopWrite w = ({ s with hasPendingWriteRequest := false }, Effects.none) := by
  obtain ⟨p, pend, v, last⟩ := s
  simp only at hr
  cases p <;>
    simp [numberRule, findTelegramBuilderConfiguration, telegramBuilderConfiguration, findIn,
      fallbackNumberRule] at hr <;>
    simp [BuderusParamNumber.loopWrite, BuderusParamNumber.loopFallback,
      findTelegramBuilderConfiguration, telegramBuilderConfiguration, findIn]

/-- C16: a Number whose parameter has neither a `UseFloatValue` or
`UseFloatValueTimesTwo` table row nor one of the six fallback branches, evaluated with
a pending write past the window, submits nothing, publishes nothing and clears the
pending flag; no later evaluation submits or publishes anything.  The parameters with
a rule are the three table rows with a float rule and the six fallback parameters;
`config_heating_circuit_1_operation_mode`, whose table row is a select row, has
none. -/
theorem number_without_rule_abandons_write (w : Telegram → Bool) (s : BuderusParamNumber)
    (t : Nat) (hpend : s.hasPendingWriteRequest = true) (hexp : s.windowExpired t = true)
    (hno : hasEncodingRule s.transmissionParameter = false) :
    s.loop w t = ({ s with hasPendingWriteRequest := false }, Effects.none) ∧
    (∀ (w2 : Telegram → Bool) (ts : List Nat),
      BuderusParamNumber.loops w2 ts (s.loop w t).1 = ((s.loop w t).1, Effects.none)) ∧
    hasEncodingRule config_heating_circuit_1_operation_mode = false ∧
    (∀ p, hasEncodingRule p = true ↔
      p = config_ww_temperature ∨ p = config_heating_circuit_1_design_temperature ∨
      p = config_heating_circuit_1_room_target_temperature_day ∨
      p = config_heating_circuit_1_room_temperature_offset ∨
      p = config_heating_circuit_1_flow_temperature_max ∨
      p = config_heating_circuit_2_design_temperature ∨
      p = config_heating_circuit_2_room_target_temperature_day ∨
      p = config_heating_circuit_2_room_temperature_offset ∨
      p = config_heating_circuit_2_flow_temperature_max) := by
  have hr : numberRule s.transmissionParameter = Option.none := by
    unfold hasEncodingRule at hno
    cases h : numberRule s.transmissionParameter with
    | none => rfl
    | some r => simp [h] at hno
  have hloop : s.loop w t = ({ s with hasPendingWriteRequest := false }, Effects.none) := by
    rw [number_loop_due w t s hpend hexp, number_loopWrite_no_rule w s hr]
  refine ⟨hloop, ?_, by decide, ?_⟩
  · intro w2 ts
    rw [hloop]
    exact number_loops_idle w2 ts _ rfl
  · intro p
    cases p <;>
      simp [hasEncodingRule, numberRule, findTelegramBuilderConfiguration,
        telegramBuilderConfiguration, findIn, fallbackNumberRule]

theorem number_without_rule_abandons_write_witness :
    ((BuderusParamNumber.create config_heating_circuit_1_operation_mode 0 0).control
      0 1).hasPendingWriteRequest = true ∧
    ((BuderusParamNumber.create config_heating_circuit_1_operation_mode 0 0).control
      0 1).windowExpired 1001 = true ∧
    hasEncodingRule ((BuderusParamNumber.create config_heating_circuit_1_operation_mode
      0 0).control 0 1).transmissionParameter = false ∧
    ((BuderusParamNumber.create config_heating_circuit_1_operation_mode 0 0).control
      0 1).loop (fun _ => true) 1001
      = ({ (BuderusParamNumber.create config_heating_circuit_1_operation_mode 0 0).control 0 1
            with hasPendingWriteRequest := false }, Effects.none) :=
  ⟨by decide, by decide, by decide,
    (number_without_rule_abandons_write (fun _ => true)
      ((BuderusParamNumber.create config_heating_circuit_1_operation_mode 0 0).control 0 1)
      1001 (by decide) (by decide) (by decide)).1⟩

/-! ## The table lookup -/

/-- C17: `findTelegramBuilderConfiguration p` is the first row of the table whose
parameter is `p`: the rows before it have other parameters; it is absent exactly when
no row has the parameter.  No two rows of the table share a parameter, and looking up
the parameter of a row of the table returns that row. -/
theorem findTelegramBuilderConfiguration_first_match (p : TransmissionParameter) :
    findTelegramBuilderConfiguration p
      = telegramBuilderConfiguration.find? (fun r => decide (r.transmissionParameter = p)) ∧
    (∀ r, findTelegramBuilderConfiguration p = some r →
      ∃ before after, telegramBuilderConfiguration = before ++ r :: after ∧
        r.transmissionParameter = p ∧ ∀ x ∈ before, x.transmissionParameter ≠ p) ∧
    (findTelegramBuilderConfiguration p = Option.none ↔
      ∀ r ∈ telegramBuilderConfiguration, r.transmissionParameter ≠ p) ∧
    (telegramBuilderConfiguration.map (fun r => r.transmissionParameter)).Nodup ∧
    (∀ r ∈ telegramBuilderConfiguration,
      findTelegramBuilderConfiguration r.transmissionParameter = some r) := by
  have hfind : ∀ l : List TelegramBuilderConfiguration,
      findIn p l = l.find? (fun r => decide (r.transmissionParameter = p)) := by
    intro l
    induction l with
    | nil => rfl
    | cons a l ih =>
      by_cases h : a.transmissionParameter = p
      · simp [findIn, h]
      · simp [findIn, h, ih]
  have hsplit : ∀ (l : List TelegramBuilderConfiguration) (r : TelegramBuilderConfiguration),
      findIn p l = some r →
      ∃ before after, l = before ++ r :: after ∧
        r.transmissionParameter = p ∧ ∀ x ∈ before, x.transmissionParameter ≠ p := by
    intro l
    induction l with
    | nil =>
      intro r h
      simp [findIn] at h
    | cons a l ih =>
      intro r h
      by_cases ha : a.transmissionParameter = p
      · simp [findIn, ha] at h
        subst h
        exact ⟨[], l, rfl, ha, by simp⟩
      · simp [findIn, ha] at h
        obtain ⟨before, after, hl, hrp, hb⟩ := ih r h
        refine ⟨a :: before, after, by rw [hl]; rfl, hrp, ?_⟩
        intro x hx
        rcases List.mem_cons.mp hx with rfl | hx2
        · exact ha
        · exact hb x hx2
  have hnone : ∀ l : List TelegramBuilderConfiguration,
      findIn p l = Option.none ↔ ∀ r ∈ l, r.transmissionParameter ≠ p := by
    intro l
    induction l with
    | nil => simp [findIn]
    | cons a l ih =>
      by_cases ha : a.transmissionParameter = p
      · simp [findIn, ha]
      · simp [findIn, ha, ih]
  refine ⟨hfind _, hsplit _, hnone _, by decide, by decide⟩

theorem findTelegramBuilderConfiguration_first_match_witness :
    (⟨config_heating_circuit_1_operation_mode, UseSelectValue, 0, 0, 2,
        data_type_heating_circuit_1, 0x00, 4⟩ : TelegramBuilderConfiguration)
      ∈ telegramBuilderConfiguration ∧
    findTelegramBuilderConfiguration config_heating_circuit_1_operation_mode
      = some ⟨config_heating_circuit_1_operation_mode, UseSelectValue, 0, 0, 2,
        data_type_heating_circuit_1, 0x00, 4⟩ :=
  ⟨by decide,
    (findTelegramBuilderConfiguration_first_match config_ww_temperature).2.2.2.2
      ⟨config_heating_circuit_1_operation_mode, UseSelectValue, 0, 0, 2,
        data_type_heating_circuit_1, 0x00, 4⟩ (by decide)⟩

/-! ## Every telegram is well formed -/

/-- A frame with an admissible data type, a value position of at most 5 and a value
byte other than the keep byte is well formed. -/
theorem frame_wellFormed (dt off pos x : Nat) (hpos : pos ≤ 5) (hx : x ≠ keep)
    (hdt : dt = data_type_warm_water ∨ dt = data_type_heating_circuit_1 ∨
      dt = data_type_heating_circuit_2) :
    wellFormedTelegram (([dt, off, keep, keep, keep, keep, keep, keep] : Telegram).set
      (pos + 2) x) := by
  refine ⟨by simp, ?_, pos + 2, by omega, by omega, ?_, ?_⟩
  · rcases hdt with h | h | h <;> simp [h]
  · have : pos + 2 < 8 := by omega
    simp [this, hx]
  · intro j h2 h8 hne
    interval_cases pos <;> interval_cases j <;> simp_all

/-- A floating value strictly between -155 and 101 does not convert to the keep
byte. -/
theorem toUint8_ne_keep {x : ℚ} (h1 : -155 < x) (h2 : x < 101) : toUint8 x ≠ keep := by
  unfold toUint8 keep
  by_cases h0 : 0 ≤ x
  · have hf0 : 0 ≤ ⌊x⌋ := Int.floor_nonneg.mpr h0
    have hf1 : ⌊x⌋ < 101 := Int.floor_lt.mpr (by exact_mod_cast h2)
    rw [truncate_of_nonneg h0]
    omega
  · have hx : x ≤ 0 := le_of_lt (not_le.mp h0)
    have hc0 : ⌈x⌉ ≤ 0 := Int.ceil_le.mpr (by exact_mod_cast hx)
    have hc1 : -155 < ⌈x⌉ := Int.lt_ceil.mpr (by exact_mod_cast h1)
    rw [truncate_of_nonpos hx]
    omega

/-- Within the bounds of a rule the value byte is never the keep byte. -/
theorem ruleByte_ne_keep {p : TransmissionParameter} {r : NumberRule} {c : ℚ}
    (hr : numberRule p = some r) (h1 : r.minValue ≤ c) (h2 : c ≤ r.maxValue) :
    ruleByte r c ≠ keep := by
  cases p <;>
    simp [numberRule, findTelegramBuilderConfiguration, telegramBuilderConfiguration, findIn,
      fallbackNumberRule] at hr <;>
    subst hr <;>
    simp only at h1 h2 <;>
    simp only [ruleByte, if_true, Bool.false_eq_true, if_false] <;>
    apply toUint8_ne_keep <;> linarith

theorem numberRule_dataType {p : TransmissionParameter} {r : NumberRule}
    (hr : numberRule p = some r) :
    r.telegramDataType = data_type_warm_water ∨
      r.telegramDataType = data_type_heating_circuit_1 ∨
      r.telegramDataType = data_type_heating_circuit_2 := by
  cases p <;>
    simp [numberRule, findTelegramBuilderConfiguration, telegramBuilderConfiguration, findIn,
      fallbackNumberRule] at hr <;>
    subst hr <;> simp

theorem selectRule_facts {p : TransmissionParameter} {r : SelectRule}
    (hr : selectRule p = some r) :
    r.maxSelectIndex = 2 ∧ r.telegramValuePosition ≤ 5 ∧
    (r.telegramDataType = data_type_warm_water ∨
      r.telegramDataType = data_type_heating_circuit_1 ∨
      r.telegramDataType = data_type_heating_circuit_2) := by
  cases p <;>
    simp [selectRule, findTelegramBuilderConfiguration, telegramBuilderConfiguration, findIn]
      at hr <;>
    subst hr <;> simp

/-- C18: every telegram that `loop` of a Number or `control` of a Select hands to the
transport, whatever the parameter, the component state, the requested value and the
answer of the transport, is 8 bytes long, has 0x0c, 0x07 or 0x08 in byte 0, and has
among bytes 2 to 7 exactly one byte other than the keep byte 0x65: the written byte is
never 0x65.  Every table row has a value position with position + 2 at most 7. -/
theorem every_submitted_telegram_wellFormed :
    (∀ (w : Telegram → Bool) (t : Nat) (s : BuderusParamNumber) (m : Telegram),
      m ∈ (s.loop w t).2.sent → wellFormedTelegram m) ∧
    (∀ (w : Telegram → Bool) (label : String) (s : BuderusParamSelect) (e : Effects String)
      (m : Telegram), s.control w label = some e → m ∈ e.sent → wellFormedTelegram m) ∧
    (∀ r ∈ telegramBuilderConfiguration, r.telegramValuePosition + 2 ≤ 7) := by
  refine ⟨?_, ?_, by decide⟩
  · intro w t s m hm
    cases hpend : s.hasPendingWriteRequest with
    | false =>
      rw [number_loop_idle w t s hpend] at hm
      simp [Effects.none] at hm
    | true =>
      cases hexp : s.windowExpired t with
      | false =>
        rw [number_loop_waiting w t s hexp] at hm
        simp [Effects.none] at hm
      | true =>
        rw [number_loop_due w t s hpend hexp] at hm
        cases hr : numberRule s.transmissionParameter with
        | none =>
          rw [number_loopWrite_no_rule w s hr] at hm
          simp [Effects.none] at hm
        | some r =>
          obtain ⟨c, hc, hwr⟩ := number_loopWrite_of_rule s r hr
          rw [hwr w, number_sendAndConfirm_sent, List.mem_singleton] at hm
          have hb := numberRule_bounds hr
          have hcb : r.minValue ≤ c ∧ c ≤ r.maxValue := by
            rcases hc with h | h
            · rw [h]
              exact ⟨hb, le_rfl⟩
            · rw [h]
              exact limitValueToRange_mem _ hb
          rw [hm]
          exact frame_wellFormed _ _ _ _ (numberRule_position hr)
            (ruleByte_ne_keep hr hcb.1 hcb.2) (numberRule_dataType hr)
  · intro w label s e m he hm
    cases hi : BuderusParamSelect.index_of s.options label with
    | none =>
      simp [BuderusParamSelect.control, hi] at he
      rw [← he] at hm
      simp [Effects.none] at hm
    | some i =>
      cases hc : s.mappings[i]? with
      | none => simp [BuderusParamSelect.control, hi, hc] at he
      | some c =>
        cases hr : selectRule s.transmissionParameter with
        | none =>
          rw [select_control_no_rule w s label i c hi hc hr] at he
          rw [← Option.some.inj he] at hm
          simp [Effects.none] at hm
        | some r =>
          obtain ⟨hmax, hpos, hdt⟩ := selectRule_facts hr
          rw [select_control_of_rule w s label i c r hi hc hr] at he
          by_cases hgt : c > r.maxSelectIndex
          · rw [if_pos hgt] at he
            rw [← Option.some.inj he] at hm
            simp [Effects.none] at hm
          · rw [if_neg hgt] at he
            rw [← Option.some.inj he, select_sendAndConfirm_sent, List.mem_singleton] at hm
            rw [hm]
            have hck : c ≠ keep := by
              unfold keep
              omega
            exact frame_wellFormed _ _ _ _ hpos hck hdt

theorem every_submitted_telegram_wellFormed_witness :
    ([0x08, 0x31, 0x65, 0x65, 0x65, 247, 0x65, 0x65] : Telegram)
      ∈ (((BuderusParamNumber.create config_heating_circuit_2_room_temperature_offset
        0 0).control 0 (-9)).loop (fun _ => false) 1001).2.sent ∧
    wellFormedTelegram [0x08, 0x31, 0x65, 0x65, 0x65, 247, 0x65, 0x65] := by
  have hmem : ([0x08, 0x31, 0x65, 0x65, 0x65, 247, 0x65, 0x65] : Telegram)
      ∈ (((BuderusParamNumber.create config_heating_circuit_2_room_temperature_offset
        0 0).control 0 (-9)).loop (fun _ => false) 1001).2.sent := by
    have hlim : limitValueToRange (-9) (-5) 5 = -5 := by
      unfold limitValueToRange
      norm_num
    have hbyte : toUint8 ((-5 : ℚ) * 2 + 1/2) = 247 := by
      have ht : truncate ((-5 : ℚ) * 2 + 1/2) = -9 := by
        rw [truncate_of_nonpos (by norm_num), Int.ceil_eq_iff]
        norm_num
      unfold toUint8
      rw [ht]
      decide
    have e : (((BuderusParamNumber.create config_heating_circuit_2_room_temperature_offset
        0 0).control 0 (-9)).loop (fun _ => false) 1001).2.sent
        = [[0x08, 0x31, 0x65, 0x65, 0x65,
            toUint8 (limitValueToRange (-9) (-5) 5 * 2 + 1/2), 0x65, 0x65]] := rfl
    rw [e, hlim, hbyte]
    exact List.mem_singleton.mpr rfl
  exact ⟨hmem, every_submitted_telegram_wellFormed.1 (fun _ => false) 1001 _ _ hmem⟩

/-! ## Select: encode then decode -/

theorem selectFrame_value {r : SelectRule} (c : Nat) (h : r.telegramValuePosition ≤ 5) :
    (selectFrame r c)[r.telegramValuePosition + 2]? = some c := by
  have : r.telegramValuePosition + 2 < 8 := by omega
  simp [selectFrame, this]

/-- C19: a Select with a rule for its parameter encodes a label of the component whose
device code `c` is within the maximum as one telegram with value byte `c`; feeding `c`
back into `handleReceivedUnsignedValue` publishes the label at the first occurrence of
`c` in the code list.  When the code list has no duplicates this is the requested
label.  With a duplicated code it can be another label: with codes [0, 0] for the
labels "A", "B", encoding "B" and decoding the value byte publishes "A". -/
theorem select_round_trip (w : Telegram → Bool) (sensorTypeParam : Nat)
    (s : BuderusParamSelect) (label : String) (i c : Nat) (r : SelectRule)
    (hr : selectRule s.transmissionParameter = some r)
    (hi : BuderusParamSelect.index_of s.options label = some i)
    (hc : s.mappings[i]? = some c) (hle : c ≤ r.maxSelectIndex) :
    (∃ (m : Telegram) (j : Nat) (first : String),
      (∃ e, s.control w label = some e ∧ e.sent = [m]) ∧
      m[r.telegramValuePosition + 2]? = some c ∧
      j ≤ i ∧ s.mappings[j]? = some c ∧ (∀ k < j, s.mappings[k]? ≠ some c) ∧
      s.options[j]? = some first ∧
      s.handleReceivedUnsignedValue sensorTypeParam c = some ⟨[], [first]⟩ ∧
      (s.mappings.Nodup → first = label)) ∧
    (BuderusParamSelect.control w "B" ⟨config_ww_operation_mode, [0, 0], ["A", "B"]⟩
        = some (BuderusParamSelect.sendAndConfirm w
            [0x0c, 0x0e, 0, 0x65, 0x65, 0x65, 0x65, 0x65] "B") ∧
      BuderusParamSelect.handleReceivedUnsignedValue sensorTypeParam 0
        ⟨config_ww_operation_mode, [0, 0], ["A", "B"]⟩ = some ⟨[], ["A"]⟩) := by
  obtain ⟨-, hpos, -⟩ := selectRule_facts hr
  obtain ⟨hidx, hmem, hopt⟩ := select_index_of_eq_some hi
  have hilt : i < s.options.length := by
    rw [hidx]
    exact List.indexOf_lt_length.mpr hmem
  have himap : i < s.mappings.length := by
    by_contra hcon
    rw [List.getElem?_eq_none (by omega)] at hc
    simp at hc
  have hcmem : c ∈ s.mappings := List.mem_iff_getElem?.mpr ⟨i, hc⟩
  have hjlt : s.mappings.indexOf c < s.mappings.length := List.indexOf_lt_length.mpr hcmem
  have hji : s.mappings.indexOf c ≤ i := by
    by_contra hcon
    exact getElem?_ne_of_lt_indexOf c s.mappings i (by omega) hc
  have hjopt : s.mappings.indexOf c < s.options.length := by omega
  refine ⟨⟨selectFrame r c, s.mappings.indexOf c, s.options[s.mappings.indexOf c],
    ?_, selectFrame_value c hpos, hji, List.getElem?_indexOf hcmem,
    fun k hk => getElem?_ne_of_lt_indexOf c s.mappings k hk,
    List.getElem?_eq_getElem hjopt, ?_, ?_⟩, ?_, ?_⟩
  · refine ⟨_, select_control_of_rule w s label i c r hi hc hr, ?_⟩
    rw [if_neg (by omega), select_sendAndConfirm_sent]
  · have hne : ¬ (s.mappings.indexOf c = s.mappings.length) := by omega
    simp [BuderusParamSelect.handleReceivedUnsignedValue, hne, BuderusParamSelect.optionAt,
      List.getElem?_eq_getElem hjopt]
  · intro hnd
    have hci : s.mappings[i] = c := by
      rw [List.getElem?_eq_getElem himap] at hc
      exact Option.some.inj hc
    have hj : s.mappings.indexOf c = i := by
      rw [← hci]
      exact List.indexOf_getElem hnd i himap
    have h1 : s.options[i]? = some (s.options[s.mappings.indexOf c]) := by
      rw [List.getElem?_eq_getElem hilt]
      simp [hj]
    rw [hopt] at h1
    exact (Option.some.inj h1).symm
  · rfl
  · rfl

theorem select_round_trip_witness :
    selectRule config_heating_circuit_1_operation_mode = some ⟨2, 0x07, 0x00, 4⟩ ∧
    BuderusParamSelect.index_of ["Auto", "Day", "Night"] "Day" = some 1 ∧
    [0, 2, 1][1]? = some 2 ∧ 2 ≤ 2 ∧
    ∃ (m : Telegram) (first : String),
      (∃ e, BuderusParamSelect.control (fun _ => true) "Day"
        ⟨config_heating_circuit_1_operation_mode, [0, 2, 1], ["Auto", "Day", "Night"]⟩
          = some e ∧ e.sent = [m]) ∧
      m[4 + 2]? = some 2 ∧
      BuderusParamSelect.handleReceivedUnsignedValue 0 2
        ⟨config_heating_circuit_1_operation_mode, [0, 2, 1], ["Auto", "Day", "Night"]⟩
          = some ⟨[], [first]⟩ ∧
      ([0, 2, 1].Nodup → first = "Day") := by
  refine ⟨by decide, by decide, by decide, by decide, ?_⟩
  obtain ⟨m, j, first, h1, h2, -, -, -, -, h3, h4⟩ := (select_round_trip (fun _ => true) 0
    ⟨config_heating_circuit_1_operation_mode, [0, 2, 1], ["Auto", "Day", "Night"]⟩ "Day" 1 2
    ⟨2, 0x07, 0x00, 4⟩ (by decide) (by decide) (by decide) (by decide)).1
  exact ⟨m, first, h1, h2, h3, h4⟩

/-! ## The debounce test across clock wrap-around -/

/-- C20: for a 32-bit request time `last` and a true elapsed time `d` below 2^32 ms,
the clock reads `(last + d) mod 2^32` and the unsigned difference to `last` is `d`,
whether or not the clock wrapped in between.  So the window of a state with that
request time counts as expired exactly when `d > 1000`, a pending write with an
encoding rule is submitted exactly then, and after `control` at any uptime the window
is expired `d` ms later exactly when `d > 1000`. -/
theorem debounce_correct_across_wraparound (last d : Nat) (hl : last < 4294967296)
    (hd : d < 4294967296) :
    sub32 ((last + d) % 4294967296) last = d ∧
    sub32 (millis (last + d)) last = d ∧
    (∀ s : BuderusParamNumber, s.lastWriteRequest = last →
      (s.windowExpired (last + d) = true ↔ d > 1000)) ∧
    (∀ (w : Telegram → Bool) (s : BuderusParamNumber), s.lastWriteRequest = last →
      s.hasPendingWriteRequest = true → hasEncodingRule s.transmissionParameter = true →
      ((s.loop w (last + d)).2.sent ≠ [] ↔ d > 1000)) ∧
    (∀ (uptime : Nat) (v : ℚ) (s : BuderusParamNumber),
      ((s.control uptime v).windowExpired (uptime + d) = true ↔ d > 1000)) := by
  have h1 : sub32 ((last + d) % 4294967296) last = d := by
    unfold sub32
    omega
  have h2 : sub32 (millis (last + d)) last = d := h1
  have h3 : ∀ s : BuderusParamNumber, s.lastWriteRequest = last →
      (s.windowExpired (last + d) = true ↔ d > 1000) := by
    intro s hs
    simp only [BuderusParamNumber.windowExpired, hs, h2,
      BuderusParamNumber.writeConsolidationPeriod, decide_eq_true_eq]
  refine ⟨h1, h2, h3, ?_, ?_⟩
  · intro w s hs hpend hrule
    obtain ⟨r, hr⟩ := (hasEncodingRule_iff _).mp hrule
    obtain ⟨c, -, hwr⟩ := number_loopWrite_of_rule s r hr
    by_cases hgt : d > 1000
    · have hexp := (h3 s hs).mpr hgt
      rw [number_loop_due w _ s hpend hexp, hwr w, number_sendAndConfirm_sent]
      simp [hgt]
    · have hexp : s.windowExpired (last + d) = false := by
        cases h : s.windowExpired (last + d) with
        | false => rfl
        | true => exact absurd ((h3 s hs).mp h) hgt
      rw [number_loop_waiting w _ s hexp]
      simp [hgt, Effects.none]
  · intro uptime v s
    have hsub : sub32 (millis (uptime + d)) (millis uptime) = d := by
      unfold sub32 millis
      omega
    simp only [BuderusParamNumber.windowExpired, BuderusParamNumber.control, hsub,
      BuderusParamNumber.writeConsolidationPeriod, decide_eq_true_eq]

theorem debounce_correct_across_wraparound_witness :
    4294967000 < 4294967296 ∧ 1500 < 4294967296 ∧
    sub32 ((4294967000 + 1500) % 4294967296) 4294967000 = 1500 ∧
    (4294967000 + 1500) % 4294967296 = 1204 :=
  ⟨by decide, by decide,
    (debounce_correct_across_wraparound 4294967000 1500 (by decide) (by decide)).1,
    by decide⟩

end KM271
